import Mathlib

/-!
# go-targa: a shallow embedding of `reader.go`

The decoder of `src/reader.go` (package `tga`) is modelled over an in-memory byte
source: a reader is the list of bytes it has not delivered yet (the behaviour of
`bytes.Reader`, which also provides `ReadByte`, so that `Decode` uses it directly
as `d.r`).  The diagnostic `fmt.Printf` output is not modelled.  Go `int` values
stay far below 2^63 here (coordinates are bounded by 65536 plus a packet length,
buffer indices by the scanline length), so they are `Nat` / `Int` without wrap on a
64-bit platform.  Running out of memory for the raster is not modelled.
-/

namespace Targa

/-- A Go `uint8`. -/
abbrev Byte := Fin 256

/-- The errors `Decode` and `DecodeConfig` can hand back: the two `io` sentinels and
the package's `FormatError` string type. -/
inductive Err where
  | EOF
  | ErrUnexpectedEOF
  | FormatError (msg : String)
deriving DecidableEq

/-- The `Error()` text of an error value. -/
def Err.Error : Err → String
  | .EOF => "EOF"
  | .ErrUnexpectedEOF => "unexpected EOF"
  | .FormatError e => "tga format error: " ++ e

/-- How a call ends: a returned value with a nil error, a returned error with no
value, a runtime panic (slice index out of range), or exhaustion of the fuel that
bounds the `for` loops of the embedding. -/
inductive Outcome (α : Type) where
  | ok (v : α)
  | error (e : Err)
  | panic
  | outOfFuel
deriving DecidableEq

/-- Type `Header` (reader.go, lines 30-43); `uint8` and `uint16` fields as `Nat`. -/
structure Header where
  Idlength : Nat
  Colourmaptype : Nat
  Datatypecode : Nat
  Colourmaporigin : Nat
  Colourmaplength : Nat
  Colourmapdepth : Nat
  X_origin : Nat
  Y_origin : Nat
  Width : Nat
  Height : Nat
  Bitsperpixel : Nat
  Imagedescriptor : Nat
deriving DecidableEq

/-- The zero `Header`. -/
def Header.zero : Header := ⟨0, 0, 0, 0, 0, 0, 0, 0, 0, 0, 0, 0⟩

/-- The fields of `decoder` (lines 57-70) that the code reads or writes. -/
structure decoder where
  head : Header
  r : List Byte
  flip : Bool
  width : Nat
  height : Nat
  depth : Nat
deriving DecidableEq

/-- Type `color.NRGBA`. -/
structure NRGBA where
  R : Byte
  G : Byte
  B : Byte
  A : Byte
deriving DecidableEq

/-- Type `image.NRGBA` with `Rect = (0,0)-(width,height)`: the pixels row by row,
pixel `(x, y)` at position `y * width + x` (Go keeps four bytes per pixel at
`y * Stride + 4 * x`). -/
structure Image where
  width : Nat
  height : Nat
  Pix : List NRGBA
deriving DecidableEq

/-- Type `image.Config`, without the colour model (always `color.RGBAModel`). -/
structure Config where
  Width : Nat
  Height : Nat
deriving DecidableEq

/-- Function `image.NewNRGBA(image.Rect(0, 0, width, height))`: every pixel zero. -/
def NewNRGBA (width height : Nat) : Image :=
  ⟨width, height, List.replicate (width * height) ⟨0, 0, 0, 0⟩⟩

/-- Method `(*image.NRGBA).SetNRGBA`: a point outside `Rect` is ignored. -/
def SetNRGBA (p : Image) (x y : Int) (c : NRGBA) : Image :=
  if 0 ≤ x ∧ x < p.width ∧ 0 ≤ y ∧ y < p.height then
    { p with Pix := p.Pix.set (y.toNat * p.width + x.toNat) c }
  else p

/-- Method `(*image.NRGBA).NRGBAAt`: the zero colour outside `Rect`. -/
def Image.NRGBAAt (p : Image) (x y : Int) : NRGBA :=
  if 0 ≤ x ∧ x < p.width ∧ 0 ≤ y ∧ y < p.height then
    p.Pix.getD (y.toNat * p.width + x.toNat) ⟨0, 0, 0, 0⟩
  else ⟨0, 0, 0, 0⟩

/-- Method `Read` of an in-memory reader `r` on the buffer `buf`: the new buffer
contents, the count, the error, and the reader afterwards.  At the end of the data
it reports `(0, io.EOF)`; otherwise it copies `min(len(buf), remaining)` bytes. -/
def Read (r buf : List Byte) : List Byte × Nat × Option Err × List Byte :=
  if r.length = 0 then (buf, 0, some Err.EOF, r)
  else
    let n := min buf.length r.length
    (r.take n ++ buf.drop n, n, none, r.drop n)

/-- Function `io.ReadFull(r, buf)` on an in-memory reader: `(0, nil)` for an empty
buffer; a full buffer when enough bytes remain; `(0, io.EOF)` when none remain;
otherwise the remaining bytes and `io.ErrUnexpectedEOF`. -/
def ReadFull (r buf : List Byte) : List Byte × Nat × Option Err × List Byte :=
  if buf.length = 0 then (buf, 0, none, r)
  else if buf.length ≤ r.length then (r.take buf.length, buf.length, none, r.drop buf.length)
  else if r.length = 0 then (buf, 0, some Err.EOF, r)
  else (r ++ buf.drop r.length, r.length, some Err.ErrUnexpectedEOF, [])

/-- A little-endian `uint16`. -/
def le16 (lo hi : Byte) : Nat := lo.val + 256 * hi.val

/-- The fields of `Header`, in declaration order, from the 18 bytes `bs` in the
little-endian layout of `encoding/binary`. -/
def decodeHeader (bs : List Byte) : Header :=
  { Idlength := (bs.getD 0 0).val
    Colourmaptype := (bs.getD 1 0).val
    Datatypecode := (bs.getD 2 0).val
    Colourmaporigin := le16 (bs.getD 3 0) (bs.getD 4 0)
    Colourmaplength := le16 (bs.getD 5 0) (bs.getD 6 0)
    Colourmapdepth := (bs.getD 7 0).val
    X_origin := le16 (bs.getD 8 0) (bs.getD 9 0)
    Y_origin := le16 (bs.getD 10 0) (bs.getD 11 0)
    Width := le16 (bs.getD 12 0) (bs.getD 13 0)
    Height := le16 (bs.getD 14 0) (bs.getD 15 0)
    Bitsperpixel := (bs.getD 16 0).val
    Imagedescriptor := (bs.getD 17 0).val }

/-- Function `binary.Read(r, binary.LittleEndian, &head)`: `io.ReadFull` of the 18
bytes of the struct, then the fields decoded from them. -/
def binaryRead (r : List Byte) : Option Err × Header × List Byte :=
  match ReadFull r (List.replicate 18 0) with
  | (_, _, some e, r1) => (some e, Header.zero, r1)
  | (bs, _, none, r1) => (none, decodeHeader bs, r1)

/-- Method `(*decoder).parseHeader` (lines 81-121): the returned error and the
decoder as the call leaves it. -/
def parseHeader (d : decoder) : Option Err × decoder :=
  match binaryRead d.r with
  | (some err, _, r1) =>
    (some (Err.FormatError ("invalid Targa header: " ++ err.Error)), { d with r := r1 })
  | (none, head, r1) =>
    (none,
     { d with
       r := r1
       width := head.Width
       height := head.Height
       depth := head.Bitsperpixel
       head := head
       flip := decide (head.Imagedescriptor >>> 5 &&& 1 = 1) })

/-- The decoder value built at the start of `Decode` and `DecodeConfig`. -/
def newDecoder (r : List Byte) : decoder :=
  ⟨Header.zero, r, false, 0, 0, 0⟩

section Pixels

variable {R : Type}

/-- Lines 261-268, the pixel loop of `case 3`: `n` iterations remain, `x = d.width - n`.
The raster is reached only through `set`, which stands for `nrgba.SetNRGBA`. -/
def scan3 (set : R → Int → Int → NRGBA → R) (bypp : Nat) (cr : List Byte) (y : Int) :
    Nat → Nat → R → Outcome R
  | 0, _, img => .ok img
  | n + 1, x, img =>
    match cr[x * bypp + 0]?, cr[x * bypp + 1]?, cr[x * bypp + 2]? with
    | some bcol, some gcol, some rcol =>
      scan3 set bypp cr y n (x + 1) (set img x y ⟨rcol, gcol, bcol, 255⟩)
    | _, _, _ => .panic

/-- Lines 286-293, the pixel loop of `case 4` / `default`. -/
def scan4 (set : R → Int → Int → NRGBA → R) (bypp : Nat) (cr : List Byte) (y : Int) :
    Nat → Nat → R → Outcome R
  | 0, _, img => .ok img
  | n + 1, x, img =>
    match cr[x * bypp + 0]?, cr[x * bypp + 1]?, cr[x * bypp + 2]?, cr[x * bypp + 3]? with
    | some bcol, some gcol, some rcol, some acol =>
      scan4 set bypp cr y n (x + 1) (set img x y ⟨rcol, gcol, bcol, acol⟩)
    | _, _, _, _ => .panic

/-- The scanline loops of lines 249-270 and 274-295, which differ only in the pixel
loop `scan`: stop at `y == limit`, `io.ReadFull` one scanline into `cr`, return an
error other than `io.EOF`, stop when nothing was read, else store the pixels of the
line in row `y` and step `y`. -/
def rawLoop (scan : List Byte → Int → R → Outcome R) (limit step : Int) :
    Nat → Int → List Byte → List Byte → R → Outcome R
  | 0, _, _, _, _ => .outOfFuel
  | fuel + 1, y, r, cr, img =>
    if y = limit then .ok img
    else
      match ReadFull r cr with
      | (cr1, n, err, r1) =>
        if err ≠ none ∧ err ≠ some Err.EOF then .error (err.getD Err.EOF)
        else if n = 0 then .ok img
        else
          match scan cr1 y img with
          | .ok img1 => rawLoop scan limit step fuel (y + step) r1 cr1 img1
          | o => o

/-- Lines 221-225, the replication loop of a run-length packet: `n` iterations
remain (`n = end - j`); the result is the raster and the new `x`. -/
def runPacket (set : R → Int → Int → NRGBA → R) (y : Int) (c0 : NRGBA) :
    Nat → Nat → R → R × Nat
  | 0, x, img => (img, x)
  | n + 1, x, img => runPacket set y c0 n (x + 1) (set img x y c0)

/-- Lines 228-242, the loop of a raw packet, `for ; i < end; i++` with four more
`i++` in its body: the result is the raster, `i` and `x` at exit. -/
def rawPacket (set : R → Int → Int → NRGBA → R) (y : Int) (cr : List Byte) (end_ : Nat) :
    Nat → Nat → Nat → R → Outcome (R × Nat × Nat)
  | 0, i, x, img => if i < end_ then .outOfFuel else .ok (img, i, x)
  | fuel + 1, i, x, img =>
    if i < end_ then
      match cr[i]?, cr[i + 1]?, cr[i + 2]?, cr[i + 3]? with
      | some bcol, some gcol, some rcol, some acol =>
        rawPacket set y cr end_ fuel (i + 4 + 1) (x + 1) (set img x y ⟨rcol, gcol, bcol, acol⟩)
      | _, _, _, _ => .panic
    else .ok (img, i, x)

/-- Lines 183-245, the loop of `case 10`, with the state `i`, `x`, `y`, the reader,
the buffer `cr` and the raster. -/
def rleLoop (set : R → Int → Int → NRGBA → R) (width : Nat) (limit step : Int) :
    Nat → Nat → Nat → Int → List Byte → List Byte → R → Outcome R
  | 0, _, _, _, _, _, _ => .outOfFuel
  | fuel + 1, i, x, y, r, cr, img =>
    if y = limit then .ok img
    else
      let x1 := if x ≥ width then 0 else x
      let y1 := if x ≥ width then y + step else y
      match Read r cr with
      | (cr1, n, err, r1) =>
        if err ≠ none ∧ err ≠ some Err.EOF then .error (err.getD Err.EOF)
        else if err = none ∧ n = 0 then .ok img
        else
          match cr1[i]? with
          | none => .panic
          | some p =>
            let i1 := i + 1
            let end_ := (p.val &&& 0x7f) + 1
            if p.val >>> 7 &&& 1 = 1 then
              match cr1[i1]?, cr1[i1 + 1]?, cr1[i1 + 2]?, cr1[i1 + 3]? with
              | some bcol, some gcol, some rcol, some acol =>
                match runPacket set y1 ⟨rcol, gcol, bcol, acol⟩ end_ x1 img with
                | (img1, x2) => rleLoop set width limit step fuel (i1 + 4) x2 y1 r1 cr1 img1
              | _, _, _, _ => .panic
            else
              match rawPacket set y1 cr1 (end_ + i1) end_ i1 x1 img with
              | .ok (img1, i2, x2) => rleLoop set width limit step fuel i2 x2 y1 r1 cr1 img1
              | .error e => .error e
              | .panic => .panic
              | .outOfFuel => .outOfFuel

/-- Lines 162-299 of `Decode`: the scanline buffer, the vertical traversal and the
`switch` on the datatype code, over the raster `nrgba` written through `set`.  The
loops get `d.height + d.width * (d.depth / 8) + 2` units of fuel. -/
def decodePixels (set : R → Int → Int → NRGBA → R) (d : decoder) (nrgba : R) : Outcome R :=
  let width := d.width
  let height := d.height
  let bypp := d.depth / 8
  let lineWidth := d.width * bypp
  let cr : List Byte := List.replicate lineWidth 0
  let y : Int := if d.flip then 0 else (height : Int) - 1
  let limit : Int := if d.flip then (height : Int) + 1 else -1
  let step : Int := if d.flip then 1 else -1
  let fuel := height + lineWidth + 2
  if d.head.Datatypecode = 10 then
    rleLoop set width limit step fuel 0 0 y d.r cr nrgba
  else if bypp = 3 then
    rawLoop (fun cr1 y1 img => scan3 set bypp cr1 y1 d.width 0 img) limit step fuel y d.r cr nrgba
  else
    rawLoop (fun cr1 y1 img => scan4 set bypp cr1 y1 d.width 0 img) limit step fuel y d.r cr nrgba

end Pixels

/-- Function `Decode` (lines 125-300) on an in-memory reader holding `r`. -/
def Decode (r : List Byte) : Outcome Image :=
  match parseHeader (newDecoder r) with
  | (some err, _) => .error (if err = Err.EOF then Err.ErrUnexpectedEOF else err)
  | (none, d) => decodePixels SetNRGBA d (NewNRGBA d.width d.height)

/-- Function `DecodeConfig` (lines 304-322): the result and the reader afterwards. -/
def DecodeConfig (r : List Byte) : Outcome Config × List Byte :=
  match parseHeader (newDecoder r) with
  | (some err, d) => (.error (if err = Err.EOF then Err.ErrUnexpectedEOF else err), d.r)
  | (none, d) => (.ok ⟨d.width, d.height⟩, d.r)

/-- The sequence of `SetNRGBA(x, y, c)` calls of `Decode`, in order: the pixel code
run over a log of calls instead of a raster. -/
def DecodeCalls (r : List Byte) : Outcome (List (Int × Int × NRGBA)) :=
  match parseHeader (newDecoder r) with
  | (some err, _) => .error (if err = Err.EOF then Err.ErrUnexpectedEOF else err)
  | (none, d) => decodePixels (fun log x y c => log ++ [(x, y, c)]) d []

/-- The colour the `case 3` pixel loop builds for column `x` of the scanline `cr`. -/
def px3 (cr : List Byte) (x : Nat) : NRGBA :=
  ⟨cr.getD (x * 3 + 2) 0, cr.getD (x * 3 + 1) 0, cr.getD (x * 3 + 0) 0, 255⟩

/-- The colour the `default` pixel loop builds for column `x` of the scanline `cr`. -/
def px4 (bypp : Nat) (cr : List Byte) (x : Nat) : NRGBA :=
  ⟨cr.getD (x * bypp + 2) 0, cr.getD (x * bypp + 1) 0, cr.getD (x * bypp + 0) 0,
    cr.getD (x * bypp + 3) 0⟩

/-- The raster after `SetNRGBA(x, y, px x)` for `n` consecutive columns from `x` on. -/
def fillRow (px : Nat → NRGBA) (y : Int) : Nat → Nat → Image → Image
  | 0, _, img => img
  | n + 1, x, img => fillRow px y n (x + 1) (SetNRGBA img x y (px x))

/-- The raster after `m` scanlines of `L` bytes, taken from the front of `s`, have
been stored in the rows `y`, `y + step`, ... -/
def fillRows (px : List Byte → Nat → NRGBA) (w L : Nat) (step : Int) :
    Nat → Int → List Byte → Image → Image
  | 0, _, _, img => img
  | m + 1, y, s, img =>
    fillRows px w L step m (y + step) (s.drop L) (fillRow (px (s.take L)) y w 0 img)

/-- The decoder as `parseHeader` leaves it after the 18 header bytes `hd`, with `p`
still to be read. -/
def parsed (hd p : List Byte) : decoder :=
  { head := decodeHeader hd
    r := p
    flip := decide ((decodeHeader hd).Imagedescriptor >>> 5 &&& 1 = 1)
    width := (decodeHeader hd).Width
    height := (decodeHeader hd).Height
    depth := (decodeHeader hd).Bitsperpixel }

/-- The output row that scanline `k` of the stream is stored in: `k` when the
vertical flag is set, `height - 1 - k` otherwise. -/
def rowOf (flip : Bool) (height : Nat) (k : Nat) : Int :=
  if flip then (k : Int) else (height : Int) - 1 - k

/-- Lines 167-178 of `Decode`: the start row `y`, the `limit` and the `step` of the
vertical traversal, for the flag `d.flip` and the height. -/
def traversal (flip : Bool) (height : Nat) : Int × Int × Int :=
  if flip then (0, (height : Int) + 1, 1) else ((height : Int) - 1, -1, -1)

/-- The 18 header bytes of the examples: datatype `dt`, `w` by `h` pixels (both
below 256), `bpp` bits per pixel, descriptor `desc`, every other field zero. -/
def hdr (dt w h bpp desc : Byte) : List Byte :=
  [0, 0, dt, 0, 0, 0, 0, 0, 0, 0, 0, 0, w, 0, h, 0, bpp, desc]

set_option maxRecDepth 20000

/-! ## Rasters -/

theorem SetNRGBA_width (p : Image) (x y : Int) (c : NRGBA) :
    (SetNRGBA p x y c).width = p.width := by
  unfold SetNRGBA; split <;> rfl

theorem SetNRGBA_height (p : Image) (x y : Int) (c : NRGBA) :
    (SetNRGBA p x y c).height = p.height := by
  unfold SetNRGBA; split <;> rfl

theorem SetNRGBA_length (p : Image) (x y : Int) (c : NRGBA) :
    (SetNRGBA p x y c).Pix.length = p.Pix.length := by
  unfold SetNRGBA; split <;> simp

theorem pix_index_lt {w h x y : Nat} (hx : x < w) (hy : y < h) : y * w + x < w * h := by
  have h1 : (y + 1) * w ≤ h * w := Nat.mul_le_mul_right w hy
  rw [Nat.succ_mul, Nat.mul_comm h w] at h1
  omega

theorem pix_index_inj {w x y x1 y1 : Nat} (hx : x < w) (hx1 : x1 < w)
    (h : y * w + x = y1 * w + x1) : x = x1 ∧ y = y1 := by
  rcases Nat.lt_trichotomy y y1 with hlt | heq | hgt
  · have h1 : (y + 1) * w ≤ y1 * w := Nat.mul_le_mul_right w hlt
    rw [Nat.succ_mul] at h1
    omega
  · subst heq
    exact ⟨by omega, rfl⟩
  · have h1 : (y1 + 1) * w ≤ y * w := Nat.mul_le_mul_right w hgt
    rw [Nat.succ_mul] at h1
    omega

/-- Reading a pixel back after one `SetNRGBA`. -/
theorem NRGBAAt_SetNRGBA (p : Image) (hp : p.Pix.length = p.width * p.height)
    (x y x1 y1 : Int) (c : NRGBA) :
    (SetNRGBA p x y c).NRGBAAt x1 y1 =
      if (0 ≤ x ∧ x < p.width ∧ 0 ≤ y ∧ y < p.height) ∧ x1 = x ∧ y1 = y then c
      else p.NRGBAAt x1 y1 := by
  by_cases hin : 0 ≤ x ∧ x < p.width ∧ 0 ≤ y ∧ y < p.height
  · by_cases hin1 : 0 ≤ x1 ∧ x1 < p.width ∧ 0 ≤ y1 ∧ y1 < p.height
    · obtain ⟨hx0, hxw, hy0, hyh⟩ := hin
      obtain ⟨hx10, hx1w, hy10, hy1h⟩ := hin1
      obtain ⟨xn, rfl⟩ := Int.eq_ofNat_of_zero_le hx0
      obtain ⟨yn, rfl⟩ := Int.eq_ofNat_of_zero_le hy0
      obtain ⟨xm, rfl⟩ := Int.eq_ofNat_of_zero_le hx10
      obtain ⟨ym, rfl⟩ := Int.eq_ofNat_of_zero_le hy10
      have hxw2 : xn < p.width := by exact_mod_cast hxw
      have hyh2 : yn < p.height := by exact_mod_cast hyh
      have hx1w2 : xm < p.width := by exact_mod_cast hx1w
      have hy1h2 : ym < p.height := by exact_mod_cast hy1h
      have hi : yn * p.width + xn < p.Pix.length := by rw [hp]; exact pix_index_lt hxw2 hyh2
      have hi1 : ym * p.width + xm < p.Pix.length := by rw [hp]; exact pix_index_lt hx1w2 hy1h2
      simp only [SetNRGBA, Image.NRGBAAt, hxw, hyh, hx1w, hy1h, Int.toNat_ofNat, Nat.cast_nonneg,
        and_self, if_true, true_and, Nat.cast_inj]
      by_cases he : xm = xn ∧ ym = yn
      · obtain ⟨rfl, rfl⟩ := he
        simp [List.getD_eq_getElem?_getD, List.getElem?_set, hi]
      · have hne : yn * p.width + xn ≠ ym * p.width + xm := by
          intro heq
          have := pix_index_inj hxw2 hx1w2 heq
          exact he ⟨this.1.symm, this.2.symm⟩
        simp [List.getD_eq_getElem?_getD, List.getElem?_set, hne, he]
    · have hne : ¬ (x1 = x ∧ y1 = y) := by
        rintro ⟨rfl, rfl⟩
        exact hin1 hin
      simp [SetNRGBA, Image.NRGBAAt, hin, hin1, hne]
  · simp [SetNRGBA, hin]

theorem fillRow_shape (px : Nat → NRGBA) (y : Int) (n x0 : Nat) (img : Image) :
    (fillRow px y n x0 img).width = img.width ∧ (fillRow px y n x0 img).height = img.height ∧
      (fillRow px y n x0 img).Pix.length = img.Pix.length := by
  induction n generalizing x0 img with
  | zero => simp [fillRow]
  | succ n ih =>
    simp only [fillRow]
    obtain ⟨h1, h2, h3⟩ := ih (x0 + 1) (SetNRGBA img x0 y (px x0))
    rw [h1, h2, h3, SetNRGBA_width, SetNRGBA_height, SetNRGBA_length]
    exact ⟨rfl, rfl, rfl⟩

/-- Reading a pixel back after a row segment has been stored. -/
theorem fillRow_at (px : Nat → NRGBA) (y : Int) (n x0 : Nat) (img : Image)
    (hp : img.Pix.length = img.width * img.height) (x1 y1 : Int) :
    (fillRow px y n x0 img).NRGBAAt x1 y1 =
      if y1 = y ∧ 0 ≤ y ∧ y < img.height ∧ (x0 : Int) ≤ x1 ∧ x1 < x0 + n ∧ x1 < img.width
      then px x1.toNat else img.NRGBAAt x1 y1 := by
  induction n generalizing x0 img with
  | zero =>
    have : ¬ ((x0 : Int) ≤ x1 ∧ x1 < x0 + (0 : Nat)) := by omega
    simp only [fillRow]
    rw [if_neg]
    tauto
  | succ n ih =>
    simp only [fillRow]
    have hp1 : (SetNRGBA img x0 y (px x0)).Pix.length =
        (SetNRGBA img x0 y (px x0)).width * (SetNRGBA img x0 y (px x0)).height := by
      rw [SetNRGBA_width, SetNRGBA_height, SetNRGBA_length, hp]
    rw [ih (x0 + 1) _ hp1, NRGBAAt_SetNRGBA img hp, SetNRGBA_width, SetNRGBA_height]
    by_cases h1 : y1 = y ∧ 0 ≤ y ∧ y < img.height ∧
        ((x0 + 1 : Nat) : Int) ≤ x1 ∧ x1 < ((x0 + 1 : Nat) : Int) + n ∧ x1 < img.width
    · rw [if_pos h1, if_pos]
      push_cast at h1 ⊢
      omega
    · rw [if_neg h1]
      by_cases h2 : (0 ≤ (x0 : Int) ∧ (x0 : Int) < img.width ∧ 0 ≤ y ∧ y < img.height) ∧
          x1 = x0 ∧ y1 = y
      · rw [if_pos h2, if_pos]
        · obtain ⟨_, hx, _⟩ := h2
          subst hx
          simp
        · push_cast
          omega
      · rw [if_neg h2, if_neg]
        push_cast at h1 ⊢
        omega

theorem fillRows_shape (px : List Byte → Nat → NRGBA) (w L : Nat) (step : Int) (m : Nat)
    (y : Int) (s : List Byte) (img : Image) :
    (fillRows px w L step m y s img).width = img.width ∧
      (fillRows px w L step m y s img).height = img.height ∧
      (fillRows px w L step m y s img).Pix.length = img.Pix.length := by
  induction m generalizing y s img with
  | zero => simp [fillRows]
  | succ m ih =>
    simp only [fillRows]
    obtain ⟨h1, h2, h3⟩ := ih (y + step) (s.drop L) (fillRow (px (s.take L)) y w 0 img)
    obtain ⟨g1, g2, g3⟩ := fillRow_shape (px (s.take L)) y w 0 img
    rw [h1, h2, h3, g1, g2, g3]
    exact ⟨rfl, rfl, rfl⟩

/-- A row that none of the `m` scanlines is stored in keeps its pixels. -/
theorem fillRows_untouched (px : List Byte → Nat → NRGBA) (w L : Nat) (step : Int) (m : Nat)
    (y : Int) (s : List Byte) (img : Image) (hp : img.Pix.length = img.width * img.height)
    (x1 y1 : Int) (hy : ∀ j : Nat, j < m → y1 ≠ y + j * step) :
    (fillRows px w L step m y s img).NRGBAAt x1 y1 = img.NRGBAAt x1 y1 := by
  induction m generalizing y s img with
  | zero => simp [fillRows]
  | succ m ih =>
    simp only [fillRows]
    obtain ⟨g1, g2, g3⟩ := fillRow_shape (px (s.take L)) y w 0 img
    rw [ih (y + step) (s.drop L) _ (by rw [g1, g2, g3, hp])]
    · rw [fillRow_at _ _ _ _ _ hp, if_neg]
      intro hc
      have := hy 0 (Nat.succ_pos m)
      simp at this
      exact this hc.1
    · intro j hj
      have := hy (j + 1) (Nat.succ_lt_succ hj)
      push_cast at this
      rw [add_mul, one_mul] at this
      intro hc
      apply this
      rw [hc]
      ring

/-- Scanline `j` of the stream ends up in row `y + j * step`. -/
theorem fillRows_at (px : List Byte → Nat → NRGBA) (w L : Nat) (step : Int) (hstep : step ≠ 0)
    (m : Nat) (y : Int) (s : List Byte) (img : Image)
    (hp : img.Pix.length = img.width * img.height) (hw : img.width = w)
    (j : Nat) (hj : j < m) (x1 : Nat) (hx : x1 < w)
    (hy0 : 0 ≤ y + j * step) (hyh : y + j * step < img.height) :
    (fillRows px w L step m y s img).NRGBAAt x1 (y + j * step) =
      px ((s.drop (j * L)).take L) x1 := by
  induction m generalizing y s img j with
  | zero => omega
  | succ m ih =>
    simp only [fillRows]
    obtain ⟨g1, g2, g3⟩ := fillRow_shape (px (s.take L)) y w 0 img
    cases j with
    | zero =>
      simp only [Nat.cast_zero, zero_mul, add_zero, Nat.zero_mul, List.drop_zero] at hy0 hyh ⊢
      rw [fillRows_untouched _ _ _ _ _ _ _ _ (by rw [g1, g2, g3, hp])]
      · rw [fillRow_at _ _ _ _ _ hp, if_pos]
        · simp
        · rw [hw]
          refine ⟨rfl, hy0, hyh, ?_, ?_, ?_⟩ <;> push_cast <;> omega
      · intro i _ hc
        have h2 : ((i : Int) + 1) * step = 0 := by
          have : y + step + i * step = y + ((i : Int) + 1) * step := by ring
          rw [this] at hc
          omega
        rcases mul_eq_zero.mp h2 with h3 | h3
        · omega
        · exact hstep h3
    | succ j =>
      have e1 : y + ((j + 1 : Nat) : Int) * step = (y + step) + j * step := by
        push_cast; ring
      rw [e1] at hy0 hyh ⊢
      rw [ih (y + step) (s.drop L) _ (by rw [g1, g2, g3, hp]) (by rw [g1, hw]) j
        (Nat.lt_of_succ_lt_succ hj) hy0 (by rw [g2]; exact hyh)]
      rw [List.drop_drop]
      congr 3
      rw [Nat.succ_mul]
      omega

theorem getElem?_eq_some_getD (cr : List Byte) (i : Nat) (h : i < cr.length) :
    cr[i]? = some (cr.getD i 0) := by
  simp [List.getD_eq_getElem?_getD, List.getElem?_eq_getElem h]

theorem line_index_lt {w bypp x k : Nat} (hx : x < w) (hk : k < bypp) :
    x * bypp + k < w * bypp := by
  have h1 : (x + 1) * bypp ≤ w * bypp := Nat.mul_le_mul_right bypp hx
  rw [Nat.succ_mul] at h1
  omega

/-- On a full scanline the `default` pixel loop does not panic and stores `px4`. -/
theorem scan4_eq (bypp w : Nat) (hb : 4 ≤ bypp) (cr : List Byte) (hcr : cr.length = w * bypp)
    (y : Int) (n x : Nat) (hn : x + n ≤ w) (img : Image) :
    scan4 SetNRGBA bypp cr y n x img = .ok (fillRow (px4 bypp cr) y n x img) := by
  induction n generalizing x img with
  | zero => simp [scan4, fillRow]
  | succ n ih =>
    have hx : x < w := by omega
    have h0 : x * bypp + 0 < cr.length := by rw [hcr]; exact line_index_lt hx (by omega)
    have h1 : x * bypp + 1 < cr.length := by rw [hcr]; exact line_index_lt hx (by omega)
    have h2 : x * bypp + 2 < cr.length := by rw [hcr]; exact line_index_lt hx (by omega)
    have h3 : x * bypp + 3 < cr.length := by rw [hcr]; exact line_index_lt hx (by omega)
    simp only [scan4, fillRow, getElem?_eq_some_getD cr _ h0, getElem?_eq_some_getD cr _ h1,
      getElem?_eq_some_getD cr _ h2, getElem?_eq_some_getD cr _ h3]
    rw [ih (x + 1) (by omega)]
    rfl

/-- On a full scanline the `case 3` pixel loop does not panic and stores `px3`. -/
theorem scan3_eq (w : Nat) (cr : List Byte) (hcr : cr.length = w * 3)
    (y : Int) (n x : Nat) (hn : x + n ≤ w) (img : Image) :
    scan3 SetNRGBA 3 cr y n x img = .ok (fillRow (px3 cr) y n x img) := by
  induction n generalizing x img with
  | zero => simp [scan3, fillRow]
  | succ n ih =>
    have h0 : x * 3 + 0 < cr.length := by omega
    have h1 : x * 3 + 1 < cr.length := by omega
    have h2 : x * 3 + 2 < cr.length := by omega
    simp only [scan3, fillRow, getElem?_eq_some_getD cr _ h0, getElem?_eq_some_getD cr _ h1,
      getElem?_eq_some_getD cr _ h2]
    rw [ih (x + 1) (by omega)]
    rfl

/-! ## The scanline loop -/

section RawLoop

variable {R : Type} (scan : List Byte → Int → R → Outcome R) (limit step : Int)

theorem rawLoop_limit (fuel : Nat) (r cr : List Byte) (img : R) :
    rawLoop scan limit step (fuel + 1) limit r cr img = .ok img := by
  simp [rawLoop]

theorem rawLoop_empty_buffer (fuel : Nat) (y : Int) (r : List Byte) (img : R) :
    rawLoop scan limit step (fuel + 1) y r [] img = .ok img := by
  simp [rawLoop, ReadFull]

theorem rawLoop_eof (fuel : Nat) (y : Int) (cr : List Byte) (img : R) :
    rawLoop scan limit step (fuel + 1) y [] cr img = .ok img := by
  by_cases h : cr.length = 0 <;> simp [rawLoop, ReadFull, h]

theorem rawLoop_short (fuel : Nat) (y : Int) (hy : y ≠ limit) (r cr : List Byte)
    (h0 : 0 < r.length) (h1 : r.length < cr.length) (img : R) :
    rawLoop scan limit step (fuel + 1) y r cr img = .error Err.ErrUnexpectedEOF := by
  have h2 : cr.length ≠ 0 := by omega
  have h3 : ¬ cr.length ≤ r.length := by omega
  have h4 : r.length ≠ 0 := by omega
  have h5 : r ≠ [] := by intro h; simp [h] at h0
  have h6 : cr ≠ [] := by intro h; simp [h] at h2
  simp [rawLoop, ReadFull, hy, h3, h5, h6]

theorem rawLoop_line (fuel : Nat) (y : Int) (hy : y ≠ limit) (r cr : List Byte)
    (h0 : 0 < cr.length) (h1 : cr.length ≤ r.length) (img img1 : R)
    (hs : scan (r.take cr.length) y img = .ok img1) :
    rawLoop scan limit step (fuel + 1) y r cr img =
      rawLoop scan limit step fuel (y + step) (r.drop cr.length) (r.take cr.length) img1 := by
  have h2 : cr.length ≠ 0 := by omega
  have h6 : cr ≠ [] := by intro h; simp [h] at h2
  simp [rawLoop, ReadFull, hy, h1, h6, hs]

end RawLoop

/-- The scanline loop on `m` full scanlines: it stores them and carries on. -/
theorem rawLoop_lines (scan : List Byte → Int → Image → Outcome Image)
    (px : List Byte → Nat → NRGBA) (w L : Nat) (hL : 0 < L)
    (hscan : ∀ (cr : List Byte) (y : Int) (img : Image), cr.length = L →
      scan cr y img = .ok (fillRow (px cr) y w 0 img))
    (limit step : Int) (m fuel : Nat) (y : Int) (r cr : List Byte) (img : Image)
    (hcr : cr.length = L) (hr : m * L ≤ r.length)
    (hy : ∀ j : Nat, j < m → y + j * step ≠ limit) :
    ∃ cr1 : List Byte, cr1.length = L ∧
      rawLoop scan limit step (fuel + m) y r cr img =
        rawLoop scan limit step fuel (y + m * step) (r.drop (m * L)) cr1
          (fillRows px w L step m y r img) := by
  induction m generalizing y r cr img with
  | zero => exact ⟨cr, hcr, by simp [fillRows]⟩
  | succ m ih =>
    have hLr : L ≤ r.length := by
      rw [Nat.succ_mul] at hr; omega
    have hy0 : y ≠ limit := by simpa using hy 0 (Nat.succ_pos m)
    have htake : (r.take L).length = L := by simp [hLr]
    obtain ⟨cr1, hcr1, heq⟩ := ih (y + step) (r.drop L) (r.take L)
      (fillRow (px (r.take L)) y w 0 img) htake
      (by rw [Nat.succ_mul] at hr; simp; omega)
      (by
        intro j hj
        have := hy (j + 1) (Nat.succ_lt_succ hj)
        push_cast at this
        rw [add_mul, one_mul] at this
        intro hc
        apply this
        rw [← hc]
        ring)
    refine ⟨cr1, hcr1, ?_⟩
    rw [← Nat.add_assoc, rawLoop_line scan limit step (fuel + m) y hy0 r cr (by omega) (by omega)
      img (fillRow (px (r.take cr.length)) y w 0 img) (hscan _ _ _ (by rw [hcr]; exact htake))]
    rw [hcr, heq]
    simp only [fillRows, List.drop_drop]
    have e1 : y + step + (m : Int) * step = y + ((m + 1 : Nat) : Int) * step := by
      push_cast; ring
    have e2 : L + m * L = (m + 1) * L := by rw [Nat.succ_mul]; omega
    rw [e1, e2]

/-! ## Header -/

theorem parseHeader_append (hd p : List Byte) (hlen : hd.length = 18) :
    parseHeader (newDecoder (hd ++ p)) = (none, parsed hd p) := by
  have h1 : 18 ≤ (hd ++ p).length := by simp [hlen]
  have h2 : (hd ++ p).take 18 = hd := by rw [← hlen]; simp
  have h3 : (hd ++ p).drop 18 = p := by rw [← hlen]; simp
  have h4 : ReadFull (hd ++ p) (List.replicate 18 0) = (hd, 18, none, p) := by
    unfold ReadFull
    rw [if_neg (by simp), if_pos (by simpa using h1)]
    simp only [List.length_replicate, h2, h3]
  simp only [parseHeader, newDecoder, binaryRead, h4, parsed]

theorem Decode_append (hd p : List Byte) (hlen : hd.length = 18) :
    Decode (hd ++ p) =
      decodePixels SetNRGBA (parsed hd p) (NewNRGBA (parsed hd p).width (parsed hd p).height) := by
  simp only [Decode, parseHeader_append hd p hlen]

theorem NewNRGBA_length (w h : Nat) :
    (NewNRGBA w h).Pix.length = (NewNRGBA w h).width * (NewNRGBA w h).height := by
  simp [NewNRGBA]

theorem NewNRGBA_at (w h : Nat) (x y : Int) : (NewNRGBA w h).NRGBAAt x y = ⟨0, 0, 0, 0⟩ := by
  unfold Image.NRGBAAt NewNRGBA
  split
  · simp only [List.getD_eq_getElem?_getD, List.getElem?_replicate]
    split <;> rfl
  · rfl

/-! ## The scanline loop in the two orientations -/

/-- The scanline loop on a stream of exactly `k` scanlines, `k` at most the height:
it returns the raster with these `k` scanlines stored. -/
theorem rawLoop_whole_lines (scan : List Byte → Int → Image → Outcome Image)
    (px : List Byte → Nat → NRGBA) (w L : Nat) (hL : 0 < L)
    (hscan : ∀ (cr : List Byte) (y : Int) (img : Image), cr.length = L →
      scan cr y img = .ok (fillRow (px cr) y w 0 img))
    (flip : Bool) (h k fuel : Nat) (hk : k ≤ h) (hfuel : h + 1 ≤ fuel)
    (p cr : List Byte) (hcr : cr.length = L) (hp : p.length = k * L) (img : Image) :
    rawLoop scan (if flip then (h : Int) + 1 else -1) (if flip then 1 else -1) fuel
        (if flip then 0 else (h : Int) - 1) p cr img =
      .ok (fillRows px w L (if flip then 1 else -1) k (if flip then 0 else (h : Int) - 1) p img) := by
  obtain ⟨f, rfl⟩ : ∃ f, fuel = (f + 1) + k := ⟨fuel - 1 - k, by omega⟩
  obtain ⟨cr1, _, heq⟩ := rawLoop_lines scan px w L hL hscan
    (if flip then (h : Int) + 1 else -1) (if flip then 1 else -1) k (f + 1)
    (if flip then 0 else (h : Int) - 1) p cr img hcr (by omega)
    (by intro j hj; cases flip <;> simp <;> omega)
  rw [heq]
  have hnil : p.drop (k * L) = [] := by
    apply List.drop_eq_nil_of_le; omega
  rw [hnil, rawLoop_eof]

/-- The scanline loop on a stream that ends inside a scanline. -/
theorem rawLoop_cut_line (scan : List Byte → Int → Image → Outcome Image)
    (px : List Byte → Nat → NRGBA) (w L : Nat) (hL : 0 < L)
    (hscan : ∀ (cr : List Byte) (y : Int) (img : Image), cr.length = L →
      scan cr y img = .ok (fillRow (px cr) y w 0 img))
    (flip : Bool) (h k r fuel : Nat) (hk : k < h) (hfuel : h + 1 ≤ fuel)
    (p cr : List Byte) (hcr : cr.length = L) (hr0 : 0 < r) (hrL : r < L)
    (hp : p.length = k * L + r) (img : Image) :
    rawLoop scan (if flip then (h : Int) + 1 else -1) (if flip then 1 else -1) fuel
        (if flip then 0 else (h : Int) - 1) p cr img = .error Err.ErrUnexpectedEOF := by
  obtain ⟨f, rfl⟩ : ∃ f, fuel = (f + 1) + k := ⟨fuel - 1 - k, by omega⟩
  obtain ⟨cr1, hcr1, heq⟩ := rawLoop_lines scan px w L hL hscan
    (if flip then (h : Int) + 1 else -1) (if flip then 1 else -1) k (f + 1)
    (if flip then 0 else (h : Int) - 1) p cr img hcr (by omega)
    (by intro j hj; cases flip <;> simp <;> omega)
  rw [heq]
  apply rawLoop_short
  · cases flip <;> simp <;> omega
  · simp; omega
  · simp; omega

/-- Scanline `k` is stored in row `rowOf flip h k`. -/
theorem fillRows_rowOf (px : List Byte → Nat → NRGBA) (w L : Nat) (flip : Bool) (h m : Nat)
    (hm : m ≤ h) (p : List Byte) (k x : Nat) (hk : k < m) (hx : x < w) :
    (fillRows px w L (if flip then 1 else -1) m (if flip then 0 else (h : Int) - 1) p
        (NewNRGBA w h)).NRGBAAt x (rowOf flip h k) = px ((p.drop (k * L)).take L) x := by
  have e : rowOf flip h k =
      (if flip then 0 else (h : Int) - 1) + (k : Int) * (if flip then 1 else -1) := by
    cases flip
    · simp [rowOf]; ring
    · simp [rowOf]
  rw [e]
  apply fillRows_at _ _ _ _ (by cases flip <;> simp) _ _ _ _ (NewNRGBA_length w h) rfl k hk x hx
  · cases flip
    · simp; omega
    · simp
  · cases flip <;> simp [NewNRGBA] <;> omega

/-- The rows of the scanlines that were not read stay zero. -/
theorem fillRows_rowOf_blank (px : List Byte → Nat → NRGBA) (w L : Nat) (flip : Bool) (h m : Nat)
    (p : List Byte) (k : Nat) (x : Int) (hk : m ≤ k) :
    (fillRows px w L (if flip then 1 else -1) m (if flip then 0 else (h : Int) - 1) p
        (NewNRGBA w h)).NRGBAAt x (rowOf flip h k) = ⟨0, 0, 0, 0⟩ := by
  rw [fillRows_untouched _ _ _ _ _ _ _ _ (NewNRGBA_length w h), NewNRGBA_at]
  intro j hj
  cases flip <;> simp [rowOf] <;> omega

/-- The scanline loop on complete pixel data: it succeeds, and scanline `k` is found
in row `rowOf flip h k`. -/
theorem rawLoop_complete (scan : List Byte → Int → Image → Outcome Image)
    (px : List Byte → Nat → NRGBA) (w L : Nat) (hw0 : L = 0 → w = 0)
    (hscan : ∀ (cr : List Byte) (y : Int) (img : Image), cr.length = L →
      scan cr y img = .ok (fillRow (px cr) y w 0 img))
    (flip : Bool) (h fuel : Nat) (hfuel : h + 1 ≤ fuel)
    (p : List Byte) (hp : p.length = h * L) :
    ∃ img : Image,
      rawLoop scan (if flip then (h : Int) + 1 else -1) (if flip then 1 else -1) fuel
        (if flip then 0 else (h : Int) - 1) p (List.replicate L 0) (NewNRGBA w h) = .ok img ∧
      img.width = w ∧ img.height = h ∧
      ∀ k x : Nat, k < h → x < w →
        img.NRGBAAt x (rowOf flip h k) = px ((p.drop (k * L)).take L) x := by
  by_cases hL : L = 0
  · obtain ⟨f, rfl⟩ : ∃ f, fuel = f + 1 := ⟨fuel - 1, by omega⟩
    refine ⟨NewNRGBA w h, ?_, rfl, rfl, ?_⟩
    · subst hL
      exact rawLoop_empty_buffer _ _ _ _ _ _ _
    · intro k x _ hx
      have := hw0 hL
      omega
  · refine ⟨_, rawLoop_whole_lines scan px w L (by omega) hscan flip h h fuel le_rfl hfuel p _
      (by simp) hp _, ?_, ?_, ?_⟩
    · exact (fillRows_shape _ _ _ _ _ _ _ _).1
    · exact (fillRows_shape _ _ _ _ _ _ _ _).2.1
    · intro k x hk hx
      exact fillRows_rowOf px w L flip h h le_rfl p k x hk hx

theorem getD_take_drop (p : List Byte) (a L i : Nat) (hi : i < L) :
    ((p.drop a).take L).getD i 0 = p.getD (a + i) 0 := by
  simp [List.getD_eq_getElem?_getD, List.getElem?_take, hi, List.getElem?_drop]

/-- The colour of column `x` of scanline `k`, by position in the pixel data. -/
theorem px4_flat (bypp w : Nat) (h4 : 4 ≤ bypp) (p : List Byte) (k x : Nat) (hx : x < w) :
    px4 bypp ((p.drop (k * (w * bypp))).take (w * bypp)) x =
      ⟨p.getD ((k * w + x) * bypp + 2) 0, p.getD ((k * w + x) * bypp + 1) 0,
        p.getD ((k * w + x) * bypp + 0) 0, p.getD ((k * w + x) * bypp + 3) 0⟩ := by
  have hlt : ∀ c, c < bypp → x * bypp + c < w * bypp := fun c hc => line_index_lt hx hc
  have hidx : ∀ c, k * (w * bypp) + (x * bypp + c) = (k * w + x) * bypp + c := by
    intro c; ring
  simp only [px4]
  rw [getD_take_drop _ _ _ _ (hlt 2 (by omega)), getD_take_drop _ _ _ _ (hlt 1 (by omega)),
    getD_take_drop _ _ _ _ (hlt 0 (by omega)), getD_take_drop _ _ _ _ (hlt 3 (by omega)),
    hidx, hidx, hidx, hidx]

theorem decodeHeader_Datatypecode (hd : List Byte) :
    (decodeHeader hd).Datatypecode = (hd.getD 2 0).val := rfl

theorem decodeHeader_Bitsperpixel (hd : List Byte) :
    (decodeHeader hd).Bitsperpixel = (hd.getD 16 0).val := rfl

theorem parsed_flip (hd p : List Byte) :
    (parsed hd p).flip = decide ((hd.getD 17 0).val >>> 5 &&& 1 = 1) := rfl

/-- Raw data of four or more bytes per pixel, complete: the `default` branch. -/
theorem Decode_raw4 (hd p : List Byte) (hlen : hd.length = 18)
    (hdt : (decodeHeader hd).Datatypecode ≠ 10) (bypp w h : Nat)
    (hb : bypp = (decodeHeader hd).Bitsperpixel / 8) (h4 : 4 ≤ bypp)
    (hw : w = (decodeHeader hd).Width) (hh : h = (decodeHeader hd).Height)
    (hp : p.length = w * h * bypp) :
    ∃ img : Image, Decode (hd ++ p) = .ok img ∧ img.width = w ∧ img.height = h ∧
      ∀ k x : Nat, k < h → x < w →
        img.NRGBAAt x (rowOf (parsed hd p).flip h k) =
          px4 bypp ((p.drop (k * (w * bypp))).take (w * bypp)) x := by
  obtain ⟨img, hrun, hiw, hih, hpix⟩ := rawLoop_complete
    (fun cr1 y1 img => scan4 SetNRGBA bypp cr1 y1 w 0 img) (px4 bypp) w (w * bypp)
    (by intro h0; rcases Nat.mul_eq_zero.mp h0 with h1 | h1 <;> omega)
    (fun cr y img hcr => scan4_eq bypp w h4 cr hcr y w 0 (by omega) img)
    (parsed hd p).flip h (h + w * bypp + 2) (by omega) p (by rw [hp]; ring)
  refine ⟨img, ?_, hiw, hih, hpix⟩
  rw [Decode_append hd p hlen, ← hrun]
  have hb3 : ¬ bypp = 3 := by omega
  simp only [decodePixels, parsed, hdt, if_false, ← hb, ← hw, ← hh]
  rw [if_neg hb3]

/-- Raw data of three bytes per pixel, complete: the `case 3` branch. -/
theorem Decode_raw3 (hd p : List Byte) (hlen : hd.length = 18)
    (hdt : (decodeHeader hd).Datatypecode ≠ 10) (w h : Nat)
    (hb : (decodeHeader hd).Bitsperpixel / 8 = 3)
    (hw : w = (decodeHeader hd).Width) (hh : h = (decodeHeader hd).Height)
    (hp : p.length = w * h * 3) :
    ∃ img : Image, Decode (hd ++ p) = .ok img ∧ img.width = w ∧ img.height = h ∧
      ∀ k x : Nat, k < h → x < w →
        img.NRGBAAt x (rowOf (parsed hd p).flip h k) =
          px3 ((p.drop (k * (w * 3))).take (w * 3)) x := by
  obtain ⟨img, hrun, hiw, hih, hpix⟩ := rawLoop_complete
    (fun cr1 y1 img => scan3 SetNRGBA 3 cr1 y1 w 0 img) px3 w (w * 3)
    (by intro h0; omega)
    (fun cr y img hcr => scan3_eq w cr hcr y w 0 (by omega) img)
    (parsed hd p).flip h (h + w * 3 + 2) (by omega) p (by rw [hp]; ring)
  refine ⟨img, ?_, hiw, hih, hpix⟩
  rw [Decode_append hd p hlen, ← hrun]
  simp only [decodePixels, parsed, hdt, hb, if_false, if_true, ← hw, ← hh]

/-- With a datatype code other than 10, `Decode` is the scanline loop of the `switch`
on the bytes per pixel. -/
theorem Decode_raw_loop (hd p : List Byte) (hlen : hd.length = 18)
    (hdt : (decodeHeader hd).Datatypecode ≠ 10) (bypp w h : Nat)
    (hb : bypp = (decodeHeader hd).Bitsperpixel / 8)
    (hw : w = (decodeHeader hd).Width) (hh : h = (decodeHeader hd).Height) :
    Decode (hd ++ p) =
      rawLoop
        (if bypp = 3 then fun cr1 y1 img => scan3 SetNRGBA bypp cr1 y1 w 0 img
          else fun cr1 y1 img => scan4 SetNRGBA bypp cr1 y1 w 0 img)
        (if (parsed hd p).flip then (h : Int) + 1 else -1)
        (if (parsed hd p).flip then 1 else -1) (h + w * bypp + 2)
        (if (parsed hd p).flip then 0 else (h : Int) - 1) p (List.replicate (w * bypp) 0)
        (NewNRGBA w h) := by
  rw [Decode_append hd p hlen]
  simp only [decodePixels, parsed, hdt, if_false, ← hb, ← hw, ← hh]
  split <;> rfl

theorem rowOf_parsed (hd p : List Byte) (h k : Nat) :
    rowOf (parsed hd p).flip h k =
      if (hd.getD 17 0).val >>> 5 &&& 1 = 1 then (k : Int) else (h : Int) - 1 - k := by
  rw [parsed_flip, rowOf]
  simp only [decide_eq_true_eq]

/-- The scanline loop on a stream that stops before the last scanline is complete. -/
theorem rawLoop_truncated (scan : List Byte → Int → Image → Outcome Image)
    (px : List Byte → Nat → NRGBA) (w L : Nat) (hL : 0 < L)
    (hscan : ∀ (cr : List Byte) (y : Int) (img : Image), cr.length = L →
      scan cr y img = .ok (fillRow (px cr) y w 0 img))
    (flip : Bool) (h fuel : Nat) (hfuel : h + 1 ≤ fuel)
    (p : List Byte) (hp : p.length < h * L) (img : Image) :
    (p.length % L ≠ 0 →
      rawLoop scan (if flip then (h : Int) + 1 else -1) (if flip then 1 else -1) fuel
        (if flip then 0 else (h : Int) - 1) p (List.replicate L 0) img =
          .error Err.ErrUnexpectedEOF) ∧
    (p.length % L = 0 →
      rawLoop scan (if flip then (h : Int) + 1 else -1) (if flip then 1 else -1) fuel
        (if flip then 0 else (h : Int) - 1) p (List.replicate L 0) img =
          .ok (fillRows px w L (if flip then 1 else -1) (p.length / L)
            (if flip then 0 else (h : Int) - 1) p img)) := by
  have hk : p.length / L < h := Nat.div_lt_of_lt_mul (by rw [Nat.mul_comm]; exact hp)
  have hdm : p.length = p.length / L * L + p.length % L := by
    rw [Nat.mul_comm]; exact (Nat.div_add_mod _ _).symm
  have hr : p.length % L < L := Nat.mod_lt _ hL
  constructor
  · intro hne
    exact rawLoop_cut_line scan px w L hL hscan flip h (p.length / L) (p.length % L) fuel hk
      hfuel p _ (by simp) (by omega) hr hdm img
  · intro he
    exact rawLoop_whole_lines scan px w L hL hscan flip h (p.length / L) fuel (by omega)
      hfuel p _ (by simp) (by omega) img

theorem getD_set_ne (hd : List Byte) (i j : Nat) (v : Byte) (h : i ≠ j) :
    (hd.set i v).getD j 0 = hd.getD j 0 := by
  simp [List.getD_eq_getElem?_getD, List.getElem?_set, h]

/-! ## The run-length loop -/

theorem Read_length (r buf : List Byte) : (Read r buf).1.length = buf.length := by
  unfold Read
  split
  · rfl
  · simp only [List.length_append, List.length_take, List.length_drop]
    omega

theorem Read_err (r buf : List Byte) :
    (Read r buf).2.2.1 = none ∨ (Read r buf).2.2.1 = some Err.EOF := by
  unfold Read
  split
  · exact Or.inr rfl
  · exact Or.inl rfl

theorem runPacket_shape (y : Int) (c0 : NRGBA) (n x : Nat) (img : Image) :
    (runPacket SetNRGBA y c0 n x img).1.width = img.width ∧
      (runPacket SetNRGBA y c0 n x img).1.height = img.height ∧
      (runPacket SetNRGBA y c0 n x img).1.Pix.length = img.Pix.length := by
  induction n generalizing x img with
  | zero => simp [runPacket]
  | succ n ih =>
    simp only [runPacket]
    obtain ⟨h1, h2, h3⟩ := ih (x + 1) (SetNRGBA img x y c0)
    rw [h1, h2, h3, SetNRGBA_width, SetNRGBA_height, SetNRGBA_length]
    exact ⟨rfl, rfl, rfl⟩

/-- The raw-packet loop ends with a panic or with a raster of the same shape and an
index that has not gone back; its fuel does not run out. -/
theorem rawPacket_spec (y : Int) (cr : List Byte) (end_ fuel i x : Nat) (img : Image)
    (hfuel : end_ ≤ i + fuel) :
    rawPacket SetNRGBA y cr end_ fuel i x img = .panic ∨
      ∃ (img1 : Image) (i2 x2 : Nat),
        rawPacket SetNRGBA y cr end_ fuel i x img = .ok (img1, i2, x2) ∧
        img1.width = img.width ∧ img1.height = img.height ∧
        img1.Pix.length = img.Pix.length ∧ i ≤ i2 := by
  induction fuel generalizing i x img with
  | zero =>
    right
    refine ⟨img, i, x, ?_, rfl, rfl, rfl, le_rfl⟩
    simp only [rawPacket]
    rw [if_neg (by omega)]
  | succ n ih =>
    simp only [rawPacket]
    by_cases hi : i < end_
    · rw [if_pos hi]
      split
      · next bcol gcol rcol acol _ _ _ _ =>
        rcases ih (i + 4 + 1) (x + 1) (SetNRGBA img x y ⟨rcol, gcol, bcol, acol⟩) (by omega) with
          hp | ⟨img1, i2, x2, hr, h1, h2, h3, h4⟩
        · exact Or.inl hp
        · right
          refine ⟨img1, i2, x2, hr, ?_, ?_, ?_, by omega⟩
          · rw [h1, SetNRGBA_width]
          · rw [h2, SetNRGBA_height]
          · rw [h3, SetNRGBA_length]
      · exact Or.inl rfl
    · rw [if_neg hi]
      exact Or.inr ⟨img, i, x, rfl, rfl, rfl, rfl, le_rfl⟩

/-- The loop of `case 10` ends with a panic or with a raster of the same shape: it
returns no error, and `cr.length - i + 1` units of fuel are enough. -/
theorem rleLoop_spec (width : Nat) (limit step : Int) (fuel i x : Nat) (y : Int)
    (r cr : List Byte) (img : Image) (hfuel : cr.length - i + 1 ≤ fuel) :
    rleLoop SetNRGBA width limit step fuel i x y r cr img = .panic ∨
      ∃ img1 : Image, rleLoop SetNRGBA width limit step fuel i x y r cr img = .ok img1 ∧
        img1.width = img.width ∧ img1.height = img.height ∧
        img1.Pix.length = img.Pix.length := by
  induction fuel generalizing i x y r cr img with
  | zero => omega
  | succ n ih =>
    simp only [rleLoop]
    by_cases hy : y = limit
    · rw [if_pos hy]
      exact Or.inr ⟨img, rfl, rfl, rfl, rfl⟩
    · rw [if_neg hy]
      have hlen := Read_length r cr
      have herr := Read_err r cr
      rcases hR : Read r cr with ⟨cr1, cnt, err, r1⟩
      rw [hR] at hlen herr
      simp only at hlen herr ⊢
      have h1 : ¬ (err ≠ none ∧ err ≠ some Err.EOF) := by
        rcases herr with h | h <;> simp [h]
      rw [if_neg h1]
      by_cases h2 : err = none ∧ cnt = 0
      · rw [if_pos h2]
        exact Or.inr ⟨img, rfl, rfl, rfl, rfl⟩
      · rw [if_neg h2]
        cases hp : cr1[i]? with
        | none => exact Or.inl rfl
        | some pb =>
          have hi : i < cr1.length := by
            by_contra hc
            rw [List.getElem?_eq_none (by omega)] at hp
            cases hp
          simp only
          by_cases hrun : pb.val >>> 7 &&& 1 = 1
          · rw [if_pos hrun]
            split
            · next bcol gcol rcol acol _ _ _ _ =>
              rcases hrp : runPacket SetNRGBA (if x ≥ width then y + step else y)
                ⟨rcol, gcol, bcol, acol⟩ ((pb.val &&& 0x7f) + 1) (if x ≥ width then 0 else x)
                img with ⟨img1, x2⟩
              have hs := runPacket_shape (if x ≥ width then y + step else y)
                ⟨rcol, gcol, bcol, acol⟩ ((pb.val &&& 0x7f) + 1) (if x ≥ width then 0 else x) img
              rw [hrp] at hs
              simp only at hs ⊢
              rcases ih (i + 1 + 4) x2 (if x ≥ width then y + step else y) r1 cr1 img1
                (by omega) with hpan | ⟨img2, hr, g1, g2, g3⟩
              · exact Or.inl hpan
              · exact Or.inr ⟨img2, hr, by rw [g1, hs.1], by rw [g2, hs.2.1], by rw [g3, hs.2.2]⟩
            · exact Or.inl rfl
          · rw [if_neg hrun]
            rcases rawPacket_spec (if x ≥ width then y + step else y) cr1
              ((pb.val &&& 0x7f) + 1 + (i + 1)) ((pb.val &&& 0x7f) + 1) (i + 1)
              (if x ≥ width then 0 else x) img (by omega) with hpan | ⟨img1, i2, x2, hr, s1, s2, s3, hi2⟩
            · rw [hpan]
              exact Or.inl rfl
            · rw [hr]
              simp only
              rcases ih i2 x2 (if x ≥ width then y + step else y) r1 cr1 img1
                (by omega) with hpan | ⟨img2, hr2, g1, g2, g3⟩
              · exact Or.inl hpan
              · exact Or.inr ⟨img2, hr2, by rw [g1, s1], by rw [g2, s2], by rw [g3, s3]⟩

/-! ## Outcomes of the loops in general -/

/-- The traversal of `decodePixels` is `traversal d.flip d.height`. -/
theorem decodePixels_traversal {R : Type} (set : R → Int → Int → NRGBA → R) (d : decoder)
    (nrgba : R) :
    decodePixels set d nrgba =
      if d.head.Datatypecode = 10 then
        rleLoop set d.width (traversal d.flip d.height).2.1 (traversal d.flip d.height).2.2
          (d.height + d.width * (d.depth / 8) + 2) 0 0 (traversal d.flip d.height).1 d.r
          (List.replicate (d.width * (d.depth / 8)) 0) nrgba
      else if d.depth / 8 = 3 then
        rawLoop (fun cr1 y1 img => scan3 set (d.depth / 8) cr1 y1 d.width 0 img)
          (traversal d.flip d.height).2.1 (traversal d.flip d.height).2.2
          (d.height + d.width * (d.depth / 8) + 2) (traversal d.flip d.height).1 d.r
          (List.replicate (d.width * (d.depth / 8)) 0) nrgba
      else
        rawLoop (fun cr1 y1 img => scan4 set (d.depth / 8) cr1 y1 d.width 0 img)
          (traversal d.flip d.height).2.1 (traversal d.flip d.height).2.2
          (d.height + d.width * (d.depth / 8) + 2) (traversal d.flip d.height).1 d.r
          (List.replicate (d.width * (d.depth / 8)) 0) nrgba := by
  unfold decodePixels traversal
  cases d.flip <;> rfl

theorem scan3_shape (bypp : Nat) (cr : List Byte) (y : Int) (n x : Nat) (img : Image) :
    scan3 SetNRGBA bypp cr y n x img = .panic ∨
      ∃ img1 : Image, scan3 SetNRGBA bypp cr y n x img = .ok img1 ∧
        img1.width = img.width ∧ img1.height = img.height ∧
        img1.Pix.length = img.Pix.length := by
  induction n generalizing x img with
  | zero => exact Or.inr ⟨img, rfl, rfl, rfl, rfl⟩
  | succ n ih =>
    simp only [scan3]
    split
    · next bcol gcol rcol _ _ _ =>
      rcases ih (x + 1) (SetNRGBA img x y ⟨rcol, gcol, bcol, 255⟩) with
        hp | ⟨img1, hr, h1, h2, h3⟩
      · exact Or.inl hp
      · refine Or.inr ⟨img1, hr, ?_, ?_, ?_⟩
        · rw [h1, SetNRGBA_width]
        · rw [h2, SetNRGBA_height]
        · rw [h3, SetNRGBA_length]
    · exact Or.inl rfl

theorem scan4_shape (bypp : Nat) (cr : List Byte) (y : Int) (n x : Nat) (img : Image) :
    scan4 SetNRGBA bypp cr y n x img = .panic ∨
      ∃ img1 : Image, scan4 SetNRGBA bypp cr y n x img = .ok img1 ∧
        img1.width = img.width ∧ img1.height = img.height ∧
        img1.Pix.length = img.Pix.length := by
  induction n generalizing x img with
  | zero => exact Or.inr ⟨img, rfl, rfl, rfl, rfl⟩
  | succ n ih =>
    simp only [scan4]
    split
    · next bcol gcol rcol acol _ _ _ _ =>
      rcases ih (x + 1) (SetNRGBA img x y ⟨rcol, gcol, bcol, acol⟩) with
        hp | ⟨img1, hr, h1, h2, h3⟩
      · exact Or.inl hp
      · refine Or.inr ⟨img1, hr, ?_, ?_, ?_⟩
        · rw [h1, SetNRGBA_width]
        · rw [h2, SetNRGBA_height]
        · rw [h3, SetNRGBA_length]
    · exact Or.inl rfl

/-- The scanline loop ends with a panic, with `io.ErrUnexpectedEOF`, or with a raster
of the same shape: `y` moves one step towards `limit` in each iteration, so one unit
of fuel more than the distance is enough. -/
theorem rawLoop_spec (scan : List Byte → Int → Image → Outcome Image)
    (hscan : ∀ (cr : List Byte) (y : Int) (img : Image),
      scan cr y img = .panic ∨
        ∃ img1 : Image, scan cr y img = .ok img1 ∧ img1.width = img.width ∧
          img1.height = img.height ∧ img1.Pix.length = img.Pix.length)
    (limit step : Int) (hstep : step = 1 ∨ step = -1) (fuel : Nat) (y : Int)
    (r cr : List Byte) (img : Image) (hdir : 0 ≤ (limit - y) * step)
    (hfuel : ((limit - y) * step).toNat + 1 ≤ fuel) :
    rawLoop scan limit step fuel y r cr img = .panic ∨
      rawLoop scan limit step fuel y r cr img = .error Err.ErrUnexpectedEOF ∨
      ∃ img1 : Image, rawLoop scan limit step fuel y r cr img = .ok img1 ∧
        img1.width = img.width ∧ img1.height = img.height ∧
        img1.Pix.length = img.Pix.length := by
  induction fuel generalizing y r cr img with
  | zero => omega
  | succ n ih =>
    simp only [rawLoop]
    by_cases hy : y = limit
    · rw [if_pos hy]
      exact Or.inr (Or.inr ⟨img, rfl, rfl, rfl, rfl⟩)
    · rw [if_neg hy]
      have hnext : 0 ≤ (limit - (y + step)) * step ∧
          ((limit - (y + step)) * step).toNat + 1 ≤ n := by
        rcases hstep with h1 | h1 <;> subst h1 <;> simp only [mul_one, mul_neg] at hdir hfuel ⊢ <;>
          omega
      have hRF : ReadFull r cr = (cr, 0, none, r) ∨
          ReadFull r cr = (r.take cr.length, cr.length, none, r.drop cr.length) ∧ cr.length ≠ 0 ∨
          ReadFull r cr = (cr, 0, some Err.EOF, r) ∨
          ReadFull r cr = (r ++ cr.drop r.length, r.length, some Err.ErrUnexpectedEOF, []) := by
        unfold ReadFull
        split
        · exact Or.inl rfl
        · split
          · exact Or.inr (Or.inl ⟨rfl, by assumption⟩)
          · split
            · exact Or.inr (Or.inr (Or.inl rfl))
            · exact Or.inr (Or.inr (Or.inr rfl))
      rcases hRF with h | ⟨h, hne⟩ | h | h
      · rw [h]
        simp only [ne_eq, not_true_eq_false, false_and, if_false, if_true]
        exact Or.inr (Or.inr ⟨img, rfl, rfl, rfl, rfl⟩)
      · rw [h]
        simp only [ne_eq, not_true_eq_false, false_and, if_false, hne]
        rcases hscan (r.take cr.length) y img with hp | ⟨img1, hs, s1, s2, s3⟩
        · rw [hp]
          exact Or.inl rfl
        · rw [hs]
          simp only
          rcases ih (y + step) (r.drop cr.length) (r.take cr.length) img1 hnext.1 hnext.2 with
            hp | he | ⟨img2, hr, g1, g2, g3⟩
          · exact Or.inl hp
          · exact Or.inr (Or.inl he)
          · exact Or.inr (Or.inr ⟨img2, hr, by rw [g1, s1], by rw [g2, s2], by rw [g3, s3]⟩)
      · rw [h]
        simp only [ne_eq, not_true_eq_false, and_false, if_false, if_true]
        exact Or.inr (Or.inr ⟨img, rfl, rfl, rfl, rfl⟩)
      · rw [h]
        right; left
        simp

theorem traversal_step (flip : Bool) (h : Nat) :
    (traversal flip h).2.2 = 1 ∨ (traversal flip h).2.2 = -1 := by
  cases flip
  · exact Or.inr rfl
  · exact Or.inl rfl

theorem traversal_distance (flip : Bool) (h : Nat) :
    0 ≤ ((traversal flip h).2.1 - (traversal flip h).1) * (traversal flip h).2.2 ∧
      (((traversal flip h).2.1 - (traversal flip h).1) * (traversal flip h).2.2).toNat ≤ h + 1 := by
  cases flip
  · simp only [traversal, Bool.false_eq_true, if_false]
    constructor <;> omega
  · simp only [traversal, if_true]
    constructor <;> omega

/-- On an input with a complete header `Decode` ends with a panic, with
`io.ErrUnexpectedEOF`, or with a raster of the width and height of the header: the
fuel of its loops does not run out. -/
theorem Decode_outcome (hd p : List Byte) (hlen : hd.length = 18) :
    Decode (hd ++ p) = .panic ∨ Decode (hd ++ p) = .error Err.ErrUnexpectedEOF ∨
      ∃ img : Image, Decode (hd ++ p) = .ok img ∧
        img.width = (decodeHeader hd).Width ∧ img.height = (decodeHeader hd).Height ∧
        img.Pix.length = (decodeHeader hd).Width * (decodeHeader hd).Height := by
  rw [Decode_append hd p hlen, decodePixels_traversal]
  have hd1 := traversal_distance (parsed hd p).flip (parsed hd p).height
  have hraw : ∀ scan : List Byte → Int → Image → Outcome Image,
      (∀ (cr : List Byte) (y : Int) (img : Image),
        scan cr y img = .panic ∨
          ∃ img1 : Image, scan cr y img = .ok img1 ∧ img1.width = img.width ∧
            img1.height = img.height ∧ img1.Pix.length = img.Pix.length) →
      rawLoop scan (traversal (parsed hd p).flip (parsed hd p).height).2.1
          (traversal (parsed hd p).flip (parsed hd p).height).2.2
          ((parsed hd p).height + (parsed hd p).width * ((parsed hd p).depth / 8) + 2)
          (traversal (parsed hd p).flip (parsed hd p).height).1 (parsed hd p).r
          (List.replicate ((parsed hd p).width * ((parsed hd p).depth / 8)) 0)
          (NewNRGBA (parsed hd p).width (parsed hd p).height) = .panic ∨
        rawLoop scan (traversal (parsed hd p).flip (parsed hd p).height).2.1
          (traversal (parsed hd p).flip (parsed hd p).height).2.2
          ((parsed hd p).height + (parsed hd p).width * ((parsed hd p).depth / 8) + 2)
          (traversal (parsed hd p).flip (parsed hd p).height).1 (parsed hd p).r
          (List.replicate ((parsed hd p).width * ((parsed hd p).depth / 8)) 0)
          (NewNRGBA (parsed hd p).width (parsed hd p).height) = .error Err.ErrUnexpectedEOF ∨
        ∃ img : Image,
          rawLoop scan (traversal (parsed hd p).flip (parsed hd p).height).2.1
            (traversal (parsed hd p).flip (parsed hd p).height).2.2
            ((parsed hd p).height + (parsed hd p).width * ((parsed hd p).depth / 8) + 2)
            (traversal (parsed hd p).flip (parsed hd p).height).1 (parsed hd p).r
            (List.replicate ((parsed hd p).width * ((parsed hd p).depth / 8)) 0)
            (NewNRGBA (parsed hd p).width (parsed hd p).height) = .ok img ∧
          img.width = (decodeHeader hd).Width ∧ img.height = (decodeHeader hd).Height ∧
          img.Pix.length = (decodeHeader hd).Width * (decodeHeader hd).Height := by
    intro scan hscan
    rcases rawLoop_spec scan hscan _ _ (traversal_step _ _) _ _ (parsed hd p).r
      (List.replicate ((parsed hd p).width * ((parsed hd p).depth / 8)) 0)
      (NewNRGBA (parsed hd p).width (parsed hd p).height) hd1.1
      (show _ ≤ (parsed hd p).height + (parsed hd p).width * ((parsed hd p).depth / 8) + 2 by
        have := hd1.2; omega) with hp | he | ⟨img, hr, g1, g2, g3⟩
    · exact Or.inl hp
    · exact Or.inr (Or.inl he)
    · exact Or.inr (Or.inr ⟨img, hr, g1, g2, by rw [g3]; exact NewNRGBA_length _ _⟩)
  split
  · rcases rleLoop_spec (parsed hd p).width
      (traversal (parsed hd p).flip (parsed hd p).height).2.1
      (traversal (parsed hd p).flip (parsed hd p).height).2.2
      ((parsed hd p).height + (parsed hd p).width * ((parsed hd p).depth / 8) + 2) 0 0
      (traversal (parsed hd p).flip (parsed hd p).height).1 (parsed hd p).r
      (List.replicate ((parsed hd p).width * ((parsed hd p).depth / 8)) 0)
      (NewNRGBA (parsed hd p).width (parsed hd p).height)
      (by simp only [List.length_replicate]; omega) with hp | ⟨img, hr, g1, g2, g3⟩
    · exact Or.inl hp
    · exact Or.inr (Or.inr ⟨img, hr, g1, g2, by rw [g3]; exact NewNRGBA_length _ _⟩)
  · split
    · exact hraw _ (fun cr y img => scan3_shape _ cr y _ 0 img)
    · exact hraw _ (fun cr y img => scan4_shape _ cr y _ 0 img)

theorem take_append_drop_18 (input : List Byte) (hlen : 18 ≤ input.length) :
    input = input.take 18 ++ input.drop 18 ∧ (input.take 18).length = 18 ∧
      ∀ i : Nat, i < 18 → (input.take 18).getD i 0 = input.getD i 0 := by
  refine ⟨(List.take_append_drop 18 input).symm, by simp; omega, ?_⟩
  intro i hi
  simp [List.getD_eq_getElem?_getD, List.getElem?_take, hi]

theorem DecodeConfig_append (hd p : List Byte) (hlen : hd.length = 18) :
    DecodeConfig (hd ++ p) = (.ok ⟨(decodeHeader hd).Width, (decodeHeader hd).Height⟩, p) := by
  simp only [DecodeConfig, parseHeader_append hd p hlen, parsed]

theorem bit5_iff (b : Byte) : (b.val >>> 5 &&& 1 = 1) ↔ (b.val / 32 % 2 = 1) := by
  revert b
  decide

/-- The pixel code reads the decoder only through the datatype code, the width, the
height, the depth, the vertical flag and the reader. -/
theorem decodePixels_congr {R : Type} (set : R → Int → Int → NRGBA → R) (d d1 : decoder)
    (nrgba : R) (hdt : d.head.Datatypecode = d1.head.Datatypecode) (hw : d.width = d1.width)
    (hh : d.height = d1.height) (hdepth : d.depth = d1.depth) (hflip : d.flip = d1.flip)
    (hr : d.r = d1.r) : decodePixels set d nrgba = decodePixels set d1 nrgba := by
  unfold decodePixels
  rw [hdt, hw, hh, hdepth, hflip, hr]

theorem Decode_short (r : List Byte) (hr : r.length < 18) :
    ∃ msg : String, Decode r = .error (Err.FormatError msg) := by
  have h2 : ¬ (18 ≤ r.length) := by omega
  by_cases h0 : r.length = 0
  · have : r = [] := List.length_eq_zero.mp h0
    subst this
    exact ⟨_, rfl⟩
  · have hread : ReadFull r (List.replicate 18 0) =
        (r ++ (List.replicate 18 (0 : Byte)).drop r.length, r.length,
          some Err.ErrUnexpectedEOF, []) := by
      unfold ReadFull
      rw [if_neg (by simp), if_neg (by simpa using h2), if_neg h0]
    refine ⟨"invalid Targa header: " ++ Err.ErrUnexpectedEOF.Error, ?_⟩
    simp only [Decode, parseHeader, newDecoder, binaryRead, hread]
    rfl

/-! ## Claims -/

/-- C1: an 18-byte header with datatype 2, 32 bits per pixel and descriptor 0x20,
followed by exactly `w * h * 4` pixel bytes `p`, decodes successfully, and the pixel
at `(x, y)` of the returned raster is `(R,G,B,A) = (p[k+2], p[k+1], p[k], p[k+3])`
with `k = 4 * (y * w + x)`. -/
theorem C1_raw32_top_to_bottom (hd p : List Byte) (hlen : hd.length = 18)
    (hdt : hd.getD 2 0 = 2) (hbpp : hd.getD 16 0 = 32) (hdesc : hd.getD 17 0 = 0x20)
    (w h : Nat) (hw : w = le16 (hd.getD 12 0) (hd.getD 13 0))
    (hh : h = le16 (hd.getD 14 0) (hd.getD 15 0)) (hp : p.length = w * h * 4) :
    ∃ img : Image, Decode (hd ++ p) = .ok img ∧ img.width = w ∧ img.height = h ∧
      ∀ x y : Nat, x < w → y < h →
        4 * (y * w + x) + 3 < p.length ∧
        img.NRGBAAt x y =
          ⟨p.getD (4 * (y * w + x) + 2) 0, p.getD (4 * (y * w + x) + 1) 0,
            p.getD (4 * (y * w + x)) 0, p.getD (4 * (y * w + x) + 3) 0⟩ := by
  obtain ⟨img, hdec, hiw, hih, hpix⟩ := Decode_raw4 hd p hlen
    (by rw [decodeHeader_Datatypecode, hdt]; decide) 4 w h
    (by rw [decodeHeader_Bitsperpixel, hbpp]; rfl) le_rfl hw hh hp
  refine ⟨img, hdec, hiw, hih, ?_⟩
  intro x y hx hy
  constructor
  · have := pix_index_lt hx hy
    rw [hp]; omega
  · have hrow : rowOf (parsed hd p).flip h y = (y : Int) := by
      rw [parsed_flip, hdesc]; rfl
    have := hpix y x hy hx
    rw [hrow, px4_flat 4 w le_rfl p y x hx] at this
    rw [this, Nat.mul_comm 4 (y * w + x)]
    rfl

/-- C1, on the 2x2 stream of the end-to-end example. -/
theorem C1_raw32_top_to_bottom_witness :
    (∃ img : Image,
      Decode (hdr 2 2 2 32 0x20 ++
        [10, 20, 30, 255, 40, 50, 60, 255, 70, 80, 90, 255, 100, 110, 120, 255]) = .ok img ∧
      img.width = 2 ∧ img.height = 2 ∧
      ∀ x y : Nat, x < 2 → y < 2 →
        4 * (y * 2 + x) + 3 <
          ([10, 20, 30, 255, 40, 50, 60, 255, 70, 80, 90, 255, 100, 110, 120, 255] :
            List Byte).length ∧
        img.NRGBAAt x y =
          ⟨([10, 20, 30, 255, 40, 50, 60, 255, 70, 80, 90, 255, 100, 110, 120, 255] :
              List Byte).getD (4 * (y * 2 + x) + 2) 0,
            ([10, 20, 30, 255, 40, 50, 60, 255, 70, 80, 90, 255, 100, 110, 120, 255] :
              List Byte).getD (4 * (y * 2 + x) + 1) 0,
            ([10, 20, 30, 255, 40, 50, 60, 255, 70, 80, 90, 255, 100, 110, 120, 255] :
              List Byte).getD (4 * (y * 2 + x)) 0,
            ([10, 20, 30, 255, 40, 50, 60, 255, 70, 80, 90, 255, 100, 110, 120, 255] :
              List Byte).getD (4 * (y * 2 + x) + 3) 0⟩) ∧
    Decode (hdr 2 2 2 32 0x20 ++
        [10, 20, 30, 255, 40, 50, 60, 255, 70, 80, 90, 255, 100, 110, 120, 255]) =
      .ok ⟨2, 2, [⟨30, 20, 10, 255⟩, ⟨60, 50, 40, 255⟩, ⟨90, 80, 70, 255⟩, ⟨120, 110, 100, 255⟩]⟩ :=
  ⟨C1_raw32_top_to_bottom (hdr 2 2 2 32 0x20)
      [10, 20, 30, 255, 40, 50, 60, 255, 70, 80, 90, 255, 100, 110, 120, 255]
      rfl rfl rfl rfl 2 2 rfl rfl rfl,
    by decide⟩

/-- C2: in a raw 32-bit image (datatype 2) with complete pixel data, the `k`-th
scanline of the stream (from 0) is stored in output row `h - 1 - k` when bit 5 of the
descriptor is 0 and in row `k` when it is 1: column `x` of that row holds the colour
of the four bytes at `4 * x` of the scanline.  In particular the first scanline goes
to row `h - 1`, respectively row 0. -/
theorem C2_raw32_scanline_rows (hd p : List Byte) (hlen : hd.length = 18)
    (hdt : hd.getD 2 0 = 2) (hbpp : hd.getD 16 0 = 32)
    (w h : Nat) (hw : w = le16 (hd.getD 12 0) (hd.getD 13 0))
    (hh : h = le16 (hd.getD 14 0) (hd.getD 15 0)) (hw1 : 1 ≤ w) (hh1 : 1 ≤ h)
    (hp : p.length = w * h * 4) :
    ∃ img : Image, Decode (hd ++ p) = .ok img ∧ img.width = w ∧ img.height = h ∧
      (∀ k x : Nat, k < h → x < w →
        img.NRGBAAt x (if (hd.getD 17 0).val >>> 5 &&& 1 = 1 then (k : Int) else (h : Int) - 1 - k) =
          ⟨((p.drop (k * (w * 4))).take (w * 4)).getD (x * 4 + 2) 0,
            ((p.drop (k * (w * 4))).take (w * 4)).getD (x * 4 + 1) 0,
            ((p.drop (k * (w * 4))).take (w * 4)).getD (x * 4 + 0) 0,
            ((p.drop (k * (w * 4))).take (w * 4)).getD (x * 4 + 3) 0⟩) ∧
      img.NRGBAAt 0 (if (hd.getD 17 0).val >>> 5 &&& 1 = 1 then 0 else (h : Int) - 1) =
        ⟨(p.take (w * 4)).getD 2 0, (p.take (w * 4)).getD 1 0, (p.take (w * 4)).getD 0 0,
          (p.take (w * 4)).getD 3 0⟩ := by
  obtain ⟨img, hdec, hiw, hih, hpix⟩ := Decode_raw4 hd p hlen
    (by rw [decodeHeader_Datatypecode, hdt]; decide) 4 w h
    (by rw [decodeHeader_Bitsperpixel, hbpp]; rfl) le_rfl hw hh hp
  have hrow : ∀ k : Nat, rowOf (parsed hd p).flip h k =
      if (hd.getD 17 0).val >>> 5 &&& 1 = 1 then (k : Int) else (h : Int) - 1 - k := by
    intro k
    rw [parsed_flip, rowOf]
    simp only [decide_eq_true_eq]
  refine ⟨img, hdec, hiw, hih, ?_, ?_⟩
  · intro k x hk hx
    rw [← hrow k, hpix k x hk hx]
    rfl
  · have := hpix 0 0 (by omega) (by omega)
    rw [hrow 0] at this
    simpa [px4] using this

/-- C2, on the 2x2 image of the example stored bottom-to-top (descriptor 0). -/
theorem C2_raw32_scanline_rows_witness :
    (∃ img : Image,
      Decode (hdr 2 2 2 32 0 ++
        [10, 20, 30, 255, 40, 50, 60, 255, 70, 80, 90, 255, 100, 110, 120, 255]) = .ok img ∧
      img.width = 2 ∧ img.height = 2 ∧
      (∀ k x : Nat, k < 2 → x < 2 →
        img.NRGBAAt x
            (if ((hdr 2 2 2 32 0).getD 17 0).val >>> 5 &&& 1 = 1 then (k : Int)
              else ((2 : Nat) : Int) - 1 - k) =
          ⟨((([10, 20, 30, 255, 40, 50, 60, 255, 70, 80, 90, 255, 100, 110, 120, 255] :
              List Byte).drop (k * (2 * 4))).take (2 * 4)).getD (x * 4 + 2) 0,
            ((([10, 20, 30, 255, 40, 50, 60, 255, 70, 80, 90, 255, 100, 110, 120, 255] :
              List Byte).drop (k * (2 * 4))).take (2 * 4)).getD (x * 4 + 1) 0,
            ((([10, 20, 30, 255, 40, 50, 60, 255, 70, 80, 90, 255, 100, 110, 120, 255] :
              List Byte).drop (k * (2 * 4))).take (2 * 4)).getD (x * 4 + 0) 0,
            ((([10, 20, 30, 255, 40, 50, 60, 255, 70, 80, 90, 255, 100, 110, 120, 255] :
              List Byte).drop (k * (2 * 4))).take (2 * 4)).getD (x * 4 + 3) 0⟩) ∧
      img.NRGBAAt 0
          (if ((hdr 2 2 2 32 0).getD 17 0).val >>> 5 &&& 1 = 1 then 0 else ((2 : Nat) : Int) - 1) =
        ⟨(([10, 20, 30, 255, 40, 50, 60, 255, 70, 80, 90, 255, 100, 110, 120, 255] :
            List Byte).take (2 * 4)).getD 2 0,
          (([10, 20, 30, 255, 40, 50, 60, 255, 70, 80, 90, 255, 100, 110, 120, 255] :
            List Byte).take (2 * 4)).getD 1 0,
          (([10, 20, 30, 255, 40, 50, 60, 255, 70, 80, 90, 255, 100, 110, 120, 255] :
            List Byte).take (2 * 4)).getD 0 0,
          (([10, 20, 30, 255, 40, 50, 60, 255, 70, 80, 90, 255, 100, 110, 120, 255] :
            List Byte).take (2 * 4)).getD 3 0⟩) ∧
    Decode (hdr 2 2 2 32 0 ++
        [10, 20, 30, 255, 40, 50, 60, 255, 70, 80, 90, 255, 100, 110, 120, 255]) =
      .ok ⟨2, 2, [⟨90, 80, 70, 255⟩, ⟨120, 110, 100, 255⟩, ⟨30, 20, 10, 255⟩, ⟨60, 50, 40, 255⟩]⟩ :=
  ⟨C2_raw32_scanline_rows (hdr 2 2 2 32 0)
      [10, 20, 30, 255, 40, 50, 60, 255, 70, 80, 90, 255, 100, 110, 120, 255]
      rfl rfl rfl 2 2 rfl rfl (by decide) (by decide) rfl,
    by decide⟩

/-- C3: a raw image (datatype 2) with 24 bits per pixel and complete pixel data
(`w * h * 3` bytes) decodes successfully, and column `x` of the row fed by scanline
`s` (row `k` of the stream order when bit 5 of the descriptor is set, row `h - 1 - k`
otherwise) is `(R,G,B,A) = (s[3x+2], s[3x+1], s[3x], 255)`. -/
theorem C3_raw24_pixels (hd p : List Byte) (hlen : hd.length = 18)
    (hdt : hd.getD 2 0 = 2) (hbpp : hd.getD 16 0 = 24)
    (w h : Nat) (hw : w = le16 (hd.getD 12 0) (hd.getD 13 0))
    (hh : h = le16 (hd.getD 14 0) (hd.getD 15 0)) (hp : p.length = w * h * 3) :
    ∃ img : Image, Decode (hd ++ p) = .ok img ∧ img.width = w ∧ img.height = h ∧
      ∀ k x : Nat, k < h → x < w →
        3 * x + 2 < ((p.drop (k * (w * 3))).take (w * 3)).length ∧
        img.NRGBAAt x (if (hd.getD 17 0).val >>> 5 &&& 1 = 1 then (k : Int) else (h : Int) - 1 - k) =
          ⟨((p.drop (k * (w * 3))).take (w * 3)).getD (3 * x + 2) 0,
            ((p.drop (k * (w * 3))).take (w * 3)).getD (3 * x + 1) 0,
            ((p.drop (k * (w * 3))).take (w * 3)).getD (3 * x) 0, 255⟩ := by
  obtain ⟨img, hdec, hiw, hih, hpix⟩ := Decode_raw3 hd p hlen
    (by rw [decodeHeader_Datatypecode, hdt]; decide) w h
    (by rw [decodeHeader_Bitsperpixel, hbpp]; rfl) hw hh hp
  have hrow : ∀ k : Nat, rowOf (parsed hd p).flip h k =
      if (hd.getD 17 0).val >>> 5 &&& 1 = 1 then (k : Int) else (h : Int) - 1 - k := by
    intro k
    rw [parsed_flip, rowOf]
    simp only [decide_eq_true_eq]
  refine ⟨img, hdec, hiw, hih, ?_⟩
  intro k x hk hx
  constructor
  · have h1 : (k + 1) * (w * 3) ≤ h * (w * 3) := Nat.mul_le_mul_right _ hk
    have h2 : w * h * 3 = h * (w * 3) := by ring
    rw [Nat.succ_mul] at h1
    simp only [List.length_take, List.length_drop, hp, h2]
    omega
  · rw [← hrow k, hpix k x hk hx, px3, Nat.mul_comm 3 x]
    rfl

/-- C3, on a 2x2 image of 24 bits per pixel stored bottom-to-top. -/
theorem C3_raw24_pixels_witness :
    (∃ img : Image,
      Decode (hdr 2 2 2 24 0 ++ [10, 20, 30, 40, 50, 60, 70, 80, 90, 100, 110, 120]) = .ok img ∧
      img.width = 2 ∧ img.height = 2 ∧
      ∀ k x : Nat, k < 2 → x < 2 →
        3 * x + 2 < ((([10, 20, 30, 40, 50, 60, 70, 80, 90, 100, 110, 120] :
            List Byte).drop (k * (2 * 3))).take (2 * 3)).length ∧
        img.NRGBAAt x
            (if ((hdr 2 2 2 24 0).getD 17 0).val >>> 5 &&& 1 = 1 then (k : Int)
              else ((2 : Nat) : Int) - 1 - k) =
          ⟨((([10, 20, 30, 40, 50, 60, 70, 80, 90, 100, 110, 120] :
              List Byte).drop (k * (2 * 3))).take (2 * 3)).getD (3 * x + 2) 0,
            ((([10, 20, 30, 40, 50, 60, 70, 80, 90, 100, 110, 120] :
              List Byte).drop (k * (2 * 3))).take (2 * 3)).getD (3 * x + 1) 0,
            ((([10, 20, 30, 40, 50, 60, 70, 80, 90, 100, 110, 120] :
              List Byte).drop (k * (2 * 3))).take (2 * 3)).getD (3 * x) 0, 255⟩) ∧
    Decode (hdr 2 2 2 24 0 ++ [10, 20, 30, 40, 50, 60, 70, 80, 90, 100, 110, 120]) =
      .ok ⟨2, 2, [⟨90, 80, 70, 255⟩, ⟨120, 110, 100, 255⟩, ⟨30, 20, 10, 255⟩, ⟨60, 50, 40, 255⟩]⟩ :=
  ⟨C3_raw24_pixels (hdr 2 2 2 24 0) [10, 20, 30, 40, 50, 60, 70, 80, 90, 100, 110, 120]
      rfl rfl rfl 2 2 rfl rfl rfl,
    by decide⟩

/-- C4 (the code at a failing input): an 8x2 RLE image, stored bottom-to-top, whose
stream is a run-length packet of 10 pixels of colour `(30,20,10,255)` followed by a
run-length packet of 6 pixels of colour `(3,2,1,4)`.  The first run covers flat
positions 0..9, so position 8 (column `8 % 8`, stream row `8 / 8`, output row
`(2 - 1) + (-1) * (8 / 8)`) should hold its colour.  `Decode` returns a raster in
which the run stops at the end of its row: output row 0 starts with the second
packet's colour and ends with two untouched pixels. -/
theorem C4_run_packet_stops_at_row_end :
    Decode (hdr 10 8 2 32 0 ++ [0x89, 10, 20, 30, 255, 0x85, 1, 2, 3, 4]) =
      .ok ⟨8, 2,
        [⟨3, 2, 1, 4⟩, ⟨3, 2, 1, 4⟩, ⟨3, 2, 1, 4⟩, ⟨3, 2, 1, 4⟩,
         ⟨3, 2, 1, 4⟩, ⟨3, 2, 1, 4⟩, ⟨0, 0, 0, 0⟩, ⟨0, 0, 0, 0⟩,
         ⟨30, 20, 10, 255⟩, ⟨30, 20, 10, 255⟩, ⟨30, 20, 10, 255⟩, ⟨30, 20, 10, 255⟩,
         ⟨30, 20, 10, 255⟩, ⟨30, 20, 10, 255⟩, ⟨30, 20, 10, 255⟩, ⟨30, 20, 10, 255⟩]⟩ ∧
    ∀ img : Image,
      Decode (hdr 10 8 2 32 0 ++ [0x89, 10, 20, 30, 255, 0x85, 1, 2, 3, 4]) = .ok img →
      img.NRGBAAt ((8 % 8 : Nat) : Int) ((((2 : Nat) : Int) - 1) + -1 * ((8 / 8 : Nat) : Int)) ≠
        ⟨30, 20, 10, 255⟩ := by
  have h : Decode (hdr 10 8 2 32 0 ++ [0x89, 10, 20, 30, 255, 0x85, 1, 2, 3, 4]) =
      .ok ⟨8, 2,
        [⟨3, 2, 1, 4⟩, ⟨3, 2, 1, 4⟩, ⟨3, 2, 1, 4⟩, ⟨3, 2, 1, 4⟩,
         ⟨3, 2, 1, 4⟩, ⟨3, 2, 1, 4⟩, ⟨0, 0, 0, 0⟩, ⟨0, 0, 0, 0⟩,
         ⟨30, 20, 10, 255⟩, ⟨30, 20, 10, 255⟩, ⟨30, 20, 10, 255⟩, ⟨30, 20, 10, 255⟩,
         ⟨30, 20, 10, 255⟩, ⟨30, 20, 10, 255⟩, ⟨30, 20, 10, 255⟩, ⟨30, 20, 10, 255⟩]⟩ := by
    decide
  refine ⟨h, ?_⟩
  intro img himg
  rw [h] at himg
  cases himg
  decide

/-- C5 (the code at a failing input): a 1x1 RLE image of 32 bits per pixel whose
stream is one raw packet holding its single pixel.  `Decode` reads the pixel's alpha
byte at index 4 of the 4-byte scanline buffer and panics. -/
theorem C5_raw_packet_panics :
    Decode (hdr 10 1 1 32 0 ++ [0x00, 10, 20, 30, 255]) = .panic := by
  decide

/-- C6 (counterexample): a 4x1 RLE image whose only packet is a run of 8 pixels, twice
the 4 pixels of the image.  `Decode` reports no error: it returns the raster with the
four pixels of the row set. -/
theorem C6_overrun_not_reported :
    Decode (hdr 10 4 1 32 0 ++ [0x87, 10, 20, 30, 255]) =
      .ok ⟨4, 1, [⟨30, 20, 10, 255⟩, ⟨30, 20, 10, 255⟩, ⟨30, 20, 10, 255⟩, ⟨30, 20, 10, 255⟩]⟩ ∧
    ¬ ∃ msg : String,
      Decode (hdr 10 4 1 32 0 ++ [0x87, 10, 20, 30, 255]) = .error (Err.FormatError msg) := by
  have h : Decode (hdr 10 4 1 32 0 ++ [0x87, 10, 20, 30, 255]) =
      .ok ⟨4, 1, [⟨30, 20, 10, 255⟩, ⟨30, 20, 10, 255⟩, ⟨30, 20, 10, 255⟩, ⟨30, 20, 10, 255⟩]⟩ := by
    decide
  refine ⟨h, ?_⟩
  rintro ⟨msg, hmsg⟩
  rw [h] at hmsg
  cases hmsg

/-- C6 (amended): on an RLE image (datatype 10), whatever the counts of its packets,
`Decode` returns no `FormatError` and no other error: it ends with a panic on a buffer
index or returns a raster.  The pixels a packet would put outside the raster are
dropped by `SetNRGBA`, so the returned raster has exactly `w * h` pixels. -/
theorem C6_rle_overrun_dropped (hd p : List Byte) (hlen : hd.length = 18)
    (hdt : hd.getD 2 0 = 10) (w h : Nat) (hw : w = le16 (hd.getD 12 0) (hd.getD 13 0))
    (hh : h = le16 (hd.getD 14 0) (hd.getD 15 0)) :
    (∀ e : Err, Decode (hd ++ p) ≠ .error e) ∧
    (Decode (hd ++ p) = .panic ∨
      ∃ img : Image, Decode (hd ++ p) = .ok img ∧ img.width = w ∧ img.height = h ∧
        img.Pix.length = w * h) := by
  have hdt2 : (decodeHeader hd).Datatypecode = 10 := by
    rw [decodeHeader_Datatypecode, hdt]; rfl
  have key : Decode (hd ++ p) = .panic ∨
      ∃ img : Image, Decode (hd ++ p) = .ok img ∧ img.width = w ∧ img.height = h ∧
        img.Pix.length = w * h := by
    rw [Decode_append hd p hlen]
    simp only [decodePixels, parsed, hdt2, if_true]
    rcases rleLoop_spec (decodeHeader hd).Width
      (if decide ((decodeHeader hd).Imagedescriptor >>> 5 &&& 1 = 1) = true
        then ((decodeHeader hd).Height : Int) + 1 else -1)
      (if decide ((decodeHeader hd).Imagedescriptor >>> 5 &&& 1 = 1) = true then 1 else -1)
      ((decodeHeader hd).Height + (decodeHeader hd).Width * ((decodeHeader hd).Bitsperpixel / 8) + 2)
      0 0
      (if decide ((decodeHeader hd).Imagedescriptor >>> 5 &&& 1 = 1) = true
        then 0 else ((decodeHeader hd).Height : Int) - 1)
      p (List.replicate ((decodeHeader hd).Width * ((decodeHeader hd).Bitsperpixel / 8)) 0)
      (NewNRGBA (decodeHeader hd).Width (decodeHeader hd).Height)
      (by simp only [List.length_replicate]; omega) with hpan | ⟨img, hr, g1, g2, g3⟩
    · exact Or.inl hpan
    · refine Or.inr ⟨img, hr, ?_, ?_, ?_⟩
      · rw [g1, hw]; rfl
      · rw [g2, hh]; rfl
      · rw [g3, hw, hh]; simp [NewNRGBA, decodeHeader]
  refine ⟨?_, key⟩
  intro e he
  rcases key with hpan | ⟨img, hr, _⟩
  · rw [hpan] at he; cases he
  · rw [hr] at he; cases he

/-- C6 (amended), on a 4x1 image whose only packet is a run of 8 pixels. -/
theorem C6_rle_overrun_dropped_witness :
    (∀ e : Err, Decode (hdr 10 4 1 32 0 ++ [0x87, 10, 20, 30, 255]) ≠ .error e) ∧
    (Decode (hdr 10 4 1 32 0 ++ [0x87, 10, 20, 30, 255]) = .panic ∨
      ∃ img : Image, Decode (hdr 10 4 1 32 0 ++ [0x87, 10, 20, 30, 255]) = .ok img ∧
        img.width = 4 ∧ img.height = 1 ∧ img.Pix.length = 4 * 1) :=
  C6_rle_overrun_dropped (hdr 10 4 1 32 0) [0x87, 10, 20, 30, 255] rfl rfl 4 1 rfl rfl

/-- C7 (counterexample): a 1x2 raw image of 32 bits per pixel.  With one of its two
scanlines in the stream, `Decode` returns a half-filled raster and no error; with one
more byte, so that the stream ends inside the second scanline, the error is
`io.ErrUnexpectedEOF`, not a `FormatError`. -/
theorem C7_truncated_not_format_error :
    Decode (hdr 2 1 2 32 0 ++ [10, 20, 30, 255]) =
      .ok ⟨1, 2, [⟨0, 0, 0, 0⟩, ⟨30, 20, 10, 255⟩]⟩ ∧
    Decode (hdr 2 1 2 32 0 ++ [10, 20, 30, 255, 1]) = .error Err.ErrUnexpectedEOF := by
  constructor <;> decide

/-- C7 (amended): a raw image (datatype 2, 24 or 32 bits per pixel, width at least 1)
whose pixel stream is shorter than `w * h * bypp` bytes (so the height is at least 1).
When the stream ends inside a scanline `Decode` returns `io.ErrUnexpectedEOF` and no raster.  When it
ends on a scanline boundary `Decode` succeeds: the raster has the scanlines that were
read in their rows, and the rows of the missing scanlines are zero. -/
theorem C7_truncated_raw (hd p : List Byte) (hlen : hd.length = 18)
    (hdt : hd.getD 2 0 = 2) (hbpp : hd.getD 16 0 = 24 ∨ hd.getD 16 0 = 32)
    (bypp w h : Nat) (hb : bypp = (hd.getD 16 0).val / 8)
    (hw : w = le16 (hd.getD 12 0) (hd.getD 13 0))
    (hh : h = le16 (hd.getD 14 0) (hd.getD 15 0)) (hw1 : 1 ≤ w)
    (hp : p.length < w * h * bypp) :
    (p.length % (w * bypp) ≠ 0 → Decode (hd ++ p) = .error Err.ErrUnexpectedEOF) ∧
    (p.length % (w * bypp) = 0 →
      ∃ img : Image, Decode (hd ++ p) = .ok img ∧ img.width = w ∧ img.height = h ∧
        (∀ k x : Nat, k < p.length / (w * bypp) → x < w →
          img.NRGBAAt x
              (if (hd.getD 17 0).val >>> 5 &&& 1 = 1 then (k : Int) else (h : Int) - 1 - k) =
            ⟨((p.drop (k * (w * bypp))).take (w * bypp)).getD (x * bypp + 2) 0,
              ((p.drop (k * (w * bypp))).take (w * bypp)).getD (x * bypp + 1) 0,
              ((p.drop (k * (w * bypp))).take (w * bypp)).getD (x * bypp + 0) 0,
              if bypp = 3 then 255
              else ((p.drop (k * (w * bypp))).take (w * bypp)).getD (x * bypp + 3) 0⟩) ∧
        (∀ (k : Nat) (x : Int), p.length / (w * bypp) ≤ k → k < h →
          img.NRGBAAt x
              (if (hd.getD 17 0).val >>> 5 &&& 1 = 1 then (k : Int) else (h : Int) - 1 - k) =
            ⟨0, 0, 0, 0⟩)) := by
  have hloop := Decode_raw_loop hd p hlen (by rw [decodeHeader_Datatypecode, hdt]; decide)
    bypp w h hb hw hh
  have hp2 : p.length < h * (w * bypp) := by
    have : w * h * bypp = h * (w * bypp) := by ring
    omega
  have key : ∀ (scan : List Byte → Int → Image → Outcome Image) (px : List Byte → Nat → NRGBA),
      0 < w * bypp →
      (∀ (cr : List Byte) (y : Int) (img : Image), cr.length = w * bypp →
        scan cr y img = .ok (fillRow (px cr) y w 0 img)) →
      Decode (hd ++ p) =
        rawLoop scan (if (parsed hd p).flip then (h : Int) + 1 else -1)
          (if (parsed hd p).flip then 1 else -1) (h + w * bypp + 2)
          (if (parsed hd p).flip then 0 else (h : Int) - 1) p (List.replicate (w * bypp) 0)
          (NewNRGBA w h) →
      (p.length % (w * bypp) ≠ 0 → Decode (hd ++ p) = .error Err.ErrUnexpectedEOF) ∧
      (p.length % (w * bypp) = 0 →
        ∃ img : Image, Decode (hd ++ p) = .ok img ∧ img.width = w ∧ img.height = h ∧
          (∀ k x : Nat, k < p.length / (w * bypp) → x < w →
            img.NRGBAAt x
                (if (hd.getD 17 0).val >>> 5 &&& 1 = 1 then (k : Int) else (h : Int) - 1 - k) =
              px ((p.drop (k * (w * bypp))).take (w * bypp)) x) ∧
          (∀ (k : Nat) (x : Int), p.length / (w * bypp) ≤ k → k < h →
            img.NRGBAAt x
                (if (hd.getD 17 0).val >>> 5 &&& 1 = 1 then (k : Int) else (h : Int) - 1 - k) =
              ⟨0, 0, 0, 0⟩)) := by
    intro scan px hL hscan hdec
    obtain ⟨hcut, hwhole⟩ := rawLoop_truncated scan px w (w * bypp) hL hscan (parsed hd p).flip h
      (h + w * bypp + 2) (by omega) p hp2 (NewNRGBA w h)
    have hk : p.length / (w * bypp) < h :=
      Nat.div_lt_of_lt_mul (by rw [Nat.mul_comm]; exact hp2)
    constructor
    · intro hne
      rw [hdec, hcut hne]
    · intro he
      refine ⟨_, by rw [hdec, hwhole he], (fillRows_shape _ _ _ _ _ _ _ _).1,
        (fillRows_shape _ _ _ _ _ _ _ _).2.1, ?_, ?_⟩
      · intro k x hk1 hx
        rw [← rowOf_parsed hd p h k]
        exact fillRows_rowOf px w (w * bypp) _ h _ (by omega) p k x hk1 hx
      · intro k x hk1 _
        rw [← rowOf_parsed hd p h k]
        exact fillRows_rowOf_blank px w (w * bypp) _ h _ p k x hk1
  rcases hbpp with h24 | h32
  · have hb3 : bypp = 3 := by rw [hb, h24]; rfl
    subst hb3
    have := key (fun cr1 y1 img => scan3 SetNRGBA 3 cr1 y1 w 0 img) px3 (by omega)
      (fun cr y img hcr => scan3_eq w cr hcr y w 0 (by omega) img)
      (by rw [hloop, if_pos rfl])
    simpa only [px3, if_true] using this
  · have hb4 : bypp = 4 := by rw [hb, h32]; rfl
    subst hb4
    have := key (fun cr1 y1 img => scan4 SetNRGBA 4 cr1 y1 w 0 img) (px4 4) (by omega)
      (fun cr y img hcr => scan4_eq 4 w le_rfl cr hcr y w 0 (by omega) img)
      (by rw [hloop, if_neg (by decide)])
    simpa only [px4, show ¬ (4 = 3) by decide, if_false] using this

/-- C7 (amended), on a 1x2 image with one scanline of its two. -/
theorem C7_truncated_raw_witness :
    Decode (hdr 2 1 2 32 0 ++ [10, 20, 30, 255]) ≠ .error Err.ErrUnexpectedEOF ∧
    (([10, 20, 30, 255] : List Byte).length % (1 * 4) ≠ 0 →
      Decode (hdr 2 1 2 32 0 ++ [10, 20, 30, 255]) = .error Err.ErrUnexpectedEOF) ∧
    (([10, 20, 30, 255] : List Byte).length % (1 * 4) = 0 →
      ∃ img : Image, Decode (hdr 2 1 2 32 0 ++ [10, 20, 30, 255]) = .ok img ∧
        img.width = 1 ∧ img.height = 2 ∧
        (∀ k x : Nat, k < ([10, 20, 30, 255] : List Byte).length / (1 * 4) → x < 1 →
          img.NRGBAAt x
              (if ((hdr 2 1 2 32 0).getD 17 0).val >>> 5 &&& 1 = 1 then (k : Int)
                else ((2 : Nat) : Int) - 1 - k) =
            ⟨((([10, 20, 30, 255] : List Byte).drop (k * (1 * 4))).take (1 * 4)).getD (x * 4 + 2) 0,
              ((([10, 20, 30, 255] : List Byte).drop (k * (1 * 4))).take (1 * 4)).getD (x * 4 + 1) 0,
              ((([10, 20, 30, 255] : List Byte).drop (k * (1 * 4))).take (1 * 4)).getD (x * 4 + 0) 0,
              if 4 = 3 then 255
              else ((([10, 20, 30, 255] : List Byte).drop (k * (1 * 4))).take (1 * 4)).getD
                (x * 4 + 3) 0⟩) ∧
        (∀ (k : Nat) (x : Int), ([10, 20, 30, 255] : List Byte).length / (1 * 4) ≤ k → k < 2 →
          img.NRGBAAt x
              (if ((hdr 2 1 2 32 0).getD 17 0).val >>> 5 &&& 1 = 1 then (k : Int)
                else ((2 : Nat) : Int) - 1 - k) =
            ⟨0, 0, 0, 0⟩)) :=
  ⟨by decide,
    C7_truncated_raw (hdr 2 1 2 32 0) [10, 20, 30, 255] rfl rfl (Or.inr rfl) 4 1 2 rfl rfl rfl
      (by decide) (by decide)⟩

/-- C8: on an input of fewer than 18 bytes both `Decode` and `DecodeConfig` end with
a `FormatError` (and so neither with a value nor with a panic). -/
theorem C8_short_header (r : List Byte) (hr : r.length < 18) :
    (∃ msg : String, Decode r = .error (Err.FormatError msg)) ∧
    (∃ msg : String, (DecodeConfig r).1 = .error (Err.FormatError msg)) := by
  have h2 : ¬ (18 ≤ r.length) := by omega
  by_cases h0 : r.length = 0
  · have : r = [] := List.length_eq_zero.mp h0
    subst this
    exact ⟨⟨_, rfl⟩, ⟨_, rfl⟩⟩
  · have hread : ReadFull r (List.replicate 18 0) =
        (r ++ (List.replicate 18 (0 : Byte)).drop r.length, r.length,
          some Err.ErrUnexpectedEOF, []) := by
      unfold ReadFull
      rw [if_neg (by simp), if_neg (by simpa using h2), if_neg h0]
    constructor
    · refine ⟨"invalid Targa header: " ++ Err.ErrUnexpectedEOF.Error, ?_⟩
      simp only [Decode, parseHeader, newDecoder, binaryRead, hread]
      rfl
    · refine ⟨"invalid Targa header: " ++ Err.ErrUnexpectedEOF.Error, ?_⟩
      simp only [DecodeConfig, parseHeader, newDecoder, binaryRead, hread]
      rfl

/-- C8, on a three-byte input. -/
theorem C8_short_header_witness :
    (∃ msg : String, Decode [1, 2, 3] = .error (Err.FormatError msg)) ∧
    (∃ msg : String, (DecodeConfig [1, 2, 3]).1 = .error (Err.FormatError msg)) :=
  C8_short_header [1, 2, 3] (by decide)

/-- C9 (counterexample): the 2x2 image of the end-to-end example with datatype code
0 ("no image data") is not rejected: it is decoded through the raw-pixel path. -/
theorem C9_datatype0_decoded :
    Decode (hdr 0 2 2 32 0x20 ++
        [10, 20, 30, 255, 40, 50, 60, 255, 70, 80, 90, 255, 100, 110, 120, 255]) =
      .ok ⟨2, 2, [⟨30, 20, 10, 255⟩, ⟨60, 50, 40, 255⟩, ⟨90, 80, 70, 255⟩, ⟨120, 110, 100, 255⟩]⟩ := by
  decide

/-- C9 (amended): a datatype code other than 10 is not rejected.  `Decode` treats it
as code 2: the outcome is that of the same input with header byte 2 replaced by 2. -/
theorem C9_other_datatypes_as_raw (hd p : List Byte) (hlen : hd.length = 18)
    (hdt : hd.getD 2 0 ≠ 10) :
    Decode (hd ++ p) = Decode (hd.set 2 2 ++ p) := by
  have hne : (decodeHeader hd).Datatypecode ≠ 10 := by
    rw [decodeHeader_Datatypecode]
    intro hc
    apply hdt
    exact Fin.ext hc
  have hlen2 : (hd.set 2 2).length = 18 := by simp [hlen]
  have hne2 : (decodeHeader (hd.set 2 2)).Datatypecode ≠ 10 := by
    rw [decodeHeader_Datatypecode]
    have : (hd.set 2 2).getD 2 0 = 2 := by
      simp [List.getD_eq_getElem?_getD, List.getElem?_set, hlen]
    rw [this]
    decide
  have hflip : (parsed (hd.set 2 2) p).flip = (parsed hd p).flip := by
    rw [parsed_flip, parsed_flip, getD_set_ne hd 2 17 2 (by decide)]
  rw [Decode_raw_loop hd p hlen hne _ _ _ rfl rfl rfl,
    Decode_raw_loop (hd.set 2 2) p hlen2 hne2 _ _ _ rfl rfl rfl, hflip]
  simp only [decodeHeader, getD_set_ne hd 2 _ 2 (show 2 ≠ 12 by decide),
    getD_set_ne hd 2 _ 2 (show 2 ≠ 13 by decide), getD_set_ne hd 2 _ 2 (show 2 ≠ 14 by decide),
    getD_set_ne hd 2 _ 2 (show 2 ≠ 15 by decide), getD_set_ne hd 2 _ 2 (show 2 ≠ 16 by decide)]

/-- C9 (amended), on the 2x2 example with datatype code 0. -/
theorem C9_other_datatypes_as_raw_witness :
    Decode (hdr 0 2 2 32 0x20 ++
        [10, 20, 30, 255, 40, 50, 60, 255, 70, 80, 90, 255, 100, 110, 120, 255]) =
      Decode ((hdr 0 2 2 32 0x20).set 2 2 ++
        [10, 20, 30, 255, 40, 50, 60, 255, 70, 80, 90, 255, 100, 110, 120, 255]) :=
  C9_other_datatypes_as_raw (hdr 0 2 2 32 0x20)
    [10, 20, 30, 255, 40, 50, 60, 255, 70, 80, 90, 255, 100, 110, 120, 255] rfl (by decide)

/-- C10 (counterexample): with 40 bits per pixel a 1x1 image is decoded from the
first four of its five bytes; with 8 bits per pixel `Decode` panics on the index of
the scanline buffer; with 0 bits per pixel it returns the untouched raster.  None of
them ends with an error. -/
theorem C10_depth_not_rejected :
    Decode (hdr 2 1 1 40 0 ++ [10, 20, 30, 255, 77]) = .ok ⟨1, 1, [⟨30, 20, 10, 255⟩]⟩ ∧
    Decode (hdr 2 1 1 8 0 ++ [10]) = .panic ∧
    Decode (hdr 2 1 1 0 0 ++ [10]) = .ok ⟨1, 1, [⟨0, 0, 0, 0⟩]⟩ := by
  refine ⟨by decide, by decide, by decide⟩

/-- C10 (amended): with a datatype code other than 10 and `bypp = depth / 8` other
than 3, `Decode` takes the four-channel branch with scanlines of `w * bypp` bytes and
reports no error.  For `bypp = 0` it returns the raster untouched (all zero).  For
`bypp` of 5 or more and complete pixel data it succeeds, and column `x` of the row of
scanline `s` is `(R,G,B,A) = (s[x*bypp+2], s[x*bypp+1], s[x*bypp], s[x*bypp+3])`. -/
theorem C10_other_depths (hd p : List Byte) (hlen : hd.length = 18)
    (hdt : hd.getD 2 0 ≠ 10) (bypp w h : Nat) (hb : bypp = (hd.getD 16 0).val / 8)
    (hw : w = le16 (hd.getD 12 0) (hd.getD 13 0))
    (hh : h = le16 (hd.getD 14 0) (hd.getD 15 0)) :
    (bypp = 0 → Decode (hd ++ p) = .ok (NewNRGBA w h)) ∧
    (5 ≤ bypp → p.length = w * h * bypp →
      ∃ img : Image, Decode (hd ++ p) = .ok img ∧ img.width = w ∧ img.height = h ∧
        ∀ k x : Nat, k < h → x < w →
          img.NRGBAAt x
              (if (hd.getD 17 0).val >>> 5 &&& 1 = 1 then (k : Int) else (h : Int) - 1 - k) =
            ⟨((p.drop (k * (w * bypp))).take (w * bypp)).getD (x * bypp + 2) 0,
              ((p.drop (k * (w * bypp))).take (w * bypp)).getD (x * bypp + 1) 0,
              ((p.drop (k * (w * bypp))).take (w * bypp)).getD (x * bypp + 0) 0,
              ((p.drop (k * (w * bypp))).take (w * bypp)).getD (x * bypp + 3) 0⟩) := by
  have hne : (decodeHeader hd).Datatypecode ≠ 10 := by
    rw [decodeHeader_Datatypecode]
    intro hc
    apply hdt
    exact Fin.ext hc
  constructor
  · intro h0
    rw [Decode_raw_loop hd p hlen hne bypp w h hb hw hh, h0]
    simp only [Nat.mul_zero, List.replicate_zero]
    exact rawLoop_empty_buffer _ _ _ _ _ _ _
  · intro h5 hp
    obtain ⟨img, hdec, hiw, hih, hpix⟩ := Decode_raw4 hd p hlen hne bypp w h hb (by omega) hw hh hp
    refine ⟨img, hdec, hiw, hih, ?_⟩
    intro k x hk hx
    rw [← rowOf_parsed hd p h k, hpix k x hk hx]
    rfl

/-- C10 (amended), on a 1x1 image of 40 bits per pixel. -/
theorem C10_other_depths_witness :
    (∃ img : Image, Decode (hdr 2 1 1 40 0 ++ [10, 20, 30, 255, 77]) = .ok img ∧
      img.width = 1 ∧ img.height = 1 ∧
      ∀ k x : Nat, k < 1 → x < 1 →
        img.NRGBAAt x
            (if ((hdr 2 1 1 40 0).getD 17 0).val >>> 5 &&& 1 = 1 then (k : Int)
              else ((1 : Nat) : Int) - 1 - k) =
          ⟨((([10, 20, 30, 255, 77] : List Byte).drop (k * (1 * 5))).take (1 * 5)).getD (x * 5 + 2) 0,
            ((([10, 20, 30, 255, 77] : List Byte).drop (k * (1 * 5))).take (1 * 5)).getD (x * 5 + 1) 0,
            ((([10, 20, 30, 255, 77] : List Byte).drop (k * (1 * 5))).take (1 * 5)).getD (x * 5 + 0) 0,
            ((([10, 20, 30, 255, 77] : List Byte).drop (k * (1 * 5))).take (1 * 5)).getD
              (x * 5 + 3) 0⟩) ∧
    ((5 : Nat) = 0 → Decode (hdr 2 1 1 40 0 ++ [10, 20, 30, 255, 77]) = .ok (NewNRGBA 1 1)) :=
  ⟨(C10_other_depths (hdr 2 1 1 40 0) [10, 20, 30, 255, 77] rfl (by decide) 5 1 1 rfl rfl rfl).2
      (by decide) rfl,
    (C10_other_depths (hdr 2 1 1 40 0) [10, 20, 30, 255, 77] rfl (by decide) 5 1 1 rfl rfl rfl).1⟩

/-- C11: on 18 bytes `b` (followed by any bytes `p`) `parseHeader` succeeds; the
header it stores has `Idlength = b[0]`, `Colourmaptype = b[1]`, `Datatypecode = b[2]`,
`Colourmaporigin = b[3] + 256*b[4]`, `Colourmaplength = b[5] + 256*b[6]`,
`Colourmapdepth = b[7]`, `X_origin = b[8] + 256*b[9]`, `Y_origin = b[10] + 256*b[11]`,
`Width = b[12] + 256*b[13]`, `Height = b[14] + 256*b[15]`, `Bitsperpixel = b[16]`,
`Imagedescriptor = b[17]`; the decoder's width, height and depth are `Width`, `Height`
and `Bitsperpixel`, its vertical flag is bit 5 of `b[17]`, and its reader is left at
`p`. -/
theorem C11_parseHeader_layout (b p : List Byte) (hb : b.length = 18) :
    ∃ d : decoder, parseHeader (newDecoder (b ++ p)) = (none, d) ∧
      d.head =
        { Idlength := (b.getD 0 0).val
          Colourmaptype := (b.getD 1 0).val
          Datatypecode := (b.getD 2 0).val
          Colourmaporigin := (b.getD 3 0).val + 256 * (b.getD 4 0).val
          Colourmaplength := (b.getD 5 0).val + 256 * (b.getD 6 0).val
          Colourmapdepth := (b.getD 7 0).val
          X_origin := (b.getD 8 0).val + 256 * (b.getD 9 0).val
          Y_origin := (b.getD 10 0).val + 256 * (b.getD 11 0).val
          Width := (b.getD 12 0).val + 256 * (b.getD 13 0).val
          Height := (b.getD 14 0).val + 256 * (b.getD 15 0).val
          Bitsperpixel := (b.getD 16 0).val
          Imagedescriptor := (b.getD 17 0).val } ∧
      d.width = (b.getD 12 0).val + 256 * (b.getD 13 0).val ∧
      d.height = (b.getD 14 0).val + 256 * (b.getD 15 0).val ∧
      d.depth = (b.getD 16 0).val ∧
      (d.flip = true ↔ (b.getD 17 0).val / 32 % 2 = 1) ∧
      d.r = p := by
  refine ⟨parsed b p, parseHeader_append b p hb, rfl, rfl, rfl, rfl, ?_, rfl⟩
  rw [parsed_flip, decide_eq_true_eq]
  exact bit5_iff _

/-- C11, on a header with a different value in every byte. -/
theorem C11_parseHeader_layout_witness :
    ∃ d : decoder,
      parseHeader (newDecoder
        ([1, 2, 3, 4, 5, 6, 7, 8, 9, 10, 11, 12, 13, 14, 15, 16, 17, 0x28] ++ [99])) =
        (none, d) ∧
      d.head = ⟨1, 2, 3, 4 + 256 * 5, 6 + 256 * 7, 8, 9 + 256 * 10, 11 + 256 * 12,
        13 + 256 * 14, 15 + 256 * 16, 17, 0x28⟩ ∧
      d.width = 13 + 256 * 14 ∧ d.height = 15 + 256 * 16 ∧ d.depth = 17 ∧
      (d.flip = true ↔ 0x28 / 32 % 2 = 1) ∧ d.r = [99] :=
  C11_parseHeader_layout [1, 2, 3, 4, 5, 6, 7, 8, 9, 10, 11, 12, 13, 14, 15, 16, 17, 0x28] [99] rfl

/-- C12: on an input of at least 18 bytes `DecodeConfig` succeeds with
`Width = b[12] + 256*b[13]` and `Height = b[14] + 256*b[15]`, and every raster that
`Decode` returns on the same input has this width and height. -/
theorem C12_config_matches_decode (input : List Byte) (hlen : 18 ≤ input.length) :
    (DecodeConfig input).1 =
        .ok ⟨(input.getD 12 0).val + 256 * (input.getD 13 0).val,
          (input.getD 14 0).val + 256 * (input.getD 15 0).val⟩ ∧
      ∀ img : Image, Decode input = .ok img →
        img.width = (input.getD 12 0).val + 256 * (input.getD 13 0).val ∧
        img.height = (input.getD 14 0).val + 256 * (input.getD 15 0).val := by
  obtain ⟨hsplit, h18, hget⟩ := take_append_drop_18 input hlen
  have hW : (decodeHeader (input.take 18)).Width =
      (input.getD 12 0).val + 256 * (input.getD 13 0).val := by
    simp only [decodeHeader, le16, hget 12 (by decide), hget 13 (by decide)]
  have hH : (decodeHeader (input.take 18)).Height =
      (input.getD 14 0).val + 256 * (input.getD 15 0).val := by
    simp only [decodeHeader, le16, hget 14 (by decide), hget 15 (by decide)]
  have hcfg := DecodeConfig_append (input.take 18) (input.drop 18) h18
  have hout := Decode_outcome (input.take 18) (input.drop 18) h18
  rw [← hsplit] at hcfg hout
  constructor
  · rw [hcfg, hW, hH]
  · intro img himg
    rcases hout with hp | he | ⟨img1, hr, g1, g2, _⟩
    · rw [hp] at himg; cases himg
    · rw [he] at himg; cases himg
    · rw [hr] at himg
      cases himg
      rw [← hW, ← hH]
      exact ⟨g1, g2⟩

/-- C12, on the 2x2 stream of the end-to-end example. -/
theorem C12_config_matches_decode_witness :
    (DecodeConfig (hdr 2 2 2 32 0x20 ++
        [10, 20, 30, 255, 40, 50, 60, 255, 70, 80, 90, 255, 100, 110, 120, 255])).1 =
      .ok ⟨2, 2⟩ ∧
    (∃ img : Image, Decode (hdr 2 2 2 32 0x20 ++
        [10, 20, 30, 255, 40, 50, 60, 255, 70, 80, 90, 255, 100, 110, 120, 255]) = .ok img) ∧
    ∀ img : Image,
      Decode (hdr 2 2 2 32 0x20 ++
        [10, 20, 30, 255, 40, 50, 60, 255, 70, 80, 90, 255, 100, 110, 120, 255]) = .ok img →
      img.width = 2 ∧ img.height = 2 :=
  ⟨(C12_config_matches_decode (hdr 2 2 2 32 0x20 ++
        [10, 20, 30, 255, 40, 50, 60, 255, 70, 80, 90, 255, 100, 110, 120, 255])
      (by decide)).1,
    ⟨⟨2, 2, [⟨30, 20, 10, 255⟩, ⟨60, 50, 40, 255⟩, ⟨90, 80, 70, 255⟩, ⟨120, 110, 100, 255⟩]⟩,
      by decide⟩,
    (C12_config_matches_decode (hdr 2 2 2 32 0x20 ++
        [10, 20, 30, 255, 40, 50, 60, 255, 70, 80, 90, 255, 100, 110, 120, 255])
      (by decide)).2⟩

/-- C13: on an input of at least 18 bytes `DecodeConfig` leaves the reader at the
input without its first 18 bytes, and its result is the same on every input that
starts with the same 18 bytes. -/
theorem C13_config_reads_header_only (input : List Byte) (hlen : 18 ≤ input.length) :
    (DecodeConfig input).2 = input.drop 18 ∧
      ∀ rest : List Byte,
        (DecodeConfig (input.take 18 ++ rest)).1 = (DecodeConfig input).1 ∧
        (DecodeConfig (input.take 18 ++ rest)).2 = rest := by
  obtain ⟨hsplit, h18, _⟩ := take_append_drop_18 input hlen
  have h1 : DecodeConfig input =
      (.ok ⟨(decodeHeader (input.take 18)).Width, (decodeHeader (input.take 18)).Height⟩,
        input.drop 18) := by
    have := DecodeConfig_append (input.take 18) (input.drop 18) h18
    rwa [← hsplit] at this
  constructor
  · rw [h1]
  · intro rest
    rw [DecodeConfig_append _ _ h18, h1]
    exact ⟨rfl, rfl⟩

/-- C13, on the 2x2 stream of the end-to-end example. -/
theorem C13_config_reads_header_only_witness :
    (DecodeConfig (hdr 2 2 2 32 0x20 ++
        [10, 20, 30, 255, 40, 50, 60, 255, 70, 80, 90, 255, 100, 110, 120, 255])).2 =
      (hdr 2 2 2 32 0x20 ++
        [10, 20, 30, 255, 40, 50, 60, 255, 70, 80, 90, 255, 100, 110, 120, 255]).drop 18 ∧
    ∀ rest : List Byte,
      (DecodeConfig ((hdr 2 2 2 32 0x20 ++
          [10, 20, 30, 255, 40, 50, 60, 255, 70, 80, 90, 255, 100, 110, 120, 255]).take 18 ++
        rest)).1 =
        (DecodeConfig (hdr 2 2 2 32 0x20 ++
          [10, 20, 30, 255, 40, 50, 60, 255, 70, 80, 90, 255, 100, 110, 120, 255])).1 ∧
      (DecodeConfig ((hdr 2 2 2 32 0x20 ++
          [10, 20, 30, 255, 40, 50, 60, 255, 70, 80, 90, 255, 100, 110, 120, 255]).take 18 ++
        rest)).2 = rest :=
  C13_config_reads_header_only (hdr 2 2 2 32 0x20 ++
    [10, 20, 30, 255, 40, 50, 60, 255, 70, 80, 90, 255, 100, 110, 120, 255]) (by decide)

/-- C14 (the code at failing inputs): a raw header of width 1 and height 0 with bit 5
of the descriptor set, followed by a single byte, makes `Decode` return
`io.ErrUnexpectedEOF` (with bit 5 clear the same input gives the empty raster).  An
RLE header (datatype 10) of width 1 and height 0 with bit 5 set, or of width 0 and
height 1, with no byte after it, makes `Decode` panic on an index of the scanline
buffer.  None of them returns the empty raster. -/
theorem C14_zero_size_not_always_empty :
    Decode (hdr 2 1 0 32 0x20 ++ [1]) = .error Err.ErrUnexpectedEOF ∧
    Decode (hdr 2 1 0 32 0 ++ [1]) = .ok ⟨1, 0, []⟩ ∧
    Decode (hdr 10 1 0 32 0x20) = .panic ∧
    Decode (hdr 10 0 1 32 0) = .panic := by
  refine ⟨by decide, by decide, by decide, by decide⟩

/-- C15 (the code at the failing input): on the empty input `Decode` and
`DecodeConfig` return the `FormatError` that `parseHeader` built around `io.EOF`; its
text ends in "EOF", not in "unexpected EOF", and it is not `io.ErrUnexpectedEOF`: the
comparison `err == io.EOF` of lines 138 and 310 is never true. -/
theorem C15_empty_input_reports_EOF :
    Decode [] = .error (Err.FormatError "invalid Targa header: EOF") ∧
    (DecodeConfig []).1 = .error (Err.FormatError "invalid Targa header: EOF") ∧
    (Err.FormatError "invalid Targa header: EOF").Error =
      "tga format error: invalid Targa header: EOF" ∧
    Decode [] ≠ .error Err.ErrUnexpectedEOF ∧
    (DecodeConfig []).1 ≠ .error Err.ErrUnexpectedEOF := by
  refine ⟨by decide, by decide, by decide, by decide, by decide⟩

/-- C16 (the code at failing inputs): with the vertical flag set the traversal that
`Decode` sets up is `(0, height + 1, +1)`, not `(0, height, +1)`; without the flag it
is `(height - 1, -1, -1)`.  On a 1x1 image with the flag set and two scanlines of data
the loop stores a scanline in row 0 and goes on to row 1. -/
theorem C16_flipped_limit_is_height_plus_one (height : Nat) :
    traversal true height = (0, (height : Int) + 1, 1) ∧
    traversal true height ≠ (0, (height : Int), 1) ∧
    traversal false height = ((height : Int) - 1, -1, -1) ∧
    DecodeCalls (hdr 2 1 1 32 0x20 ++ [10, 20, 30, 255, 1, 2, 3, 4]) =
      .ok [(0, 0, ⟨30, 20, 10, 255⟩), (0, 1, ⟨3, 2, 1, 4⟩)] ∧
    DecodeCalls (hdr 2 1 1 32 0 ++ [10, 20, 30, 255, 1, 2, 3, 4]) =
      .ok [(0, 0, ⟨30, 20, 10, 255⟩)] := by
  refine ⟨rfl, ?_, rfl, by decide, by decide⟩
  intro hc
  have h1 : (traversal true height).2.1 = (height : Int) := by rw [hc]
  simp only [traversal, if_true] at h1
  omega

/-- C17 (the code at failing inputs): the `SetNRGBA` calls of `Decode` on a 1x2 image
with the vertical flag set and three scanlines of data include `(0, 2)`, a row equal
to the height; on a 4x1 RLE image with a run of 8 pixels they include the columns 4
to 7 and the row -1. -/
theorem C17_set_called_out_of_range :
    DecodeCalls (hdr 2 1 2 32 0x20 ++ [10, 20, 30, 255, 40, 50, 60, 255, 1, 2, 3, 4]) =
      .ok [(0, 0, ⟨30, 20, 10, 255⟩), (0, 1, ⟨60, 50, 40, 255⟩), (0, 2, ⟨3, 2, 1, 4⟩)] ∧
    DecodeCalls (hdr 10 4 1 32 0 ++ [0x87, 10, 20, 30, 255]) =
      .ok [(0, 0, ⟨30, 20, 10, 255⟩), (1, 0, ⟨30, 20, 10, 255⟩), (2, 0, ⟨30, 20, 10, 255⟩),
        (3, 0, ⟨30, 20, 10, 255⟩), (4, 0, ⟨30, 20, 10, 255⟩), (5, 0, ⟨30, 20, 10, 255⟩),
        (6, 0, ⟨30, 20, 10, 255⟩), (7, 0, ⟨30, 20, 10, 255⟩), (0, -1, ⟨0, 0, 0, 0⟩)] := by
  refine ⟨by decide, by decide⟩

/-- C18 (the code at the failing input): a 1x1 raw image of 32 bits per pixel with the
vertical flag set decodes to its pixel, and with one more byte after the pixel data
`Decode` returns `io.ErrUnexpectedEOF`; with the flag clear the extra byte changes
nothing. -/
theorem C18_trailing_byte_breaks_flipped :
    Decode (hdr 2 1 1 32 0x20 ++ [10, 20, 30, 255]) = .ok ⟨1, 1, [⟨30, 20, 10, 255⟩]⟩ ∧
    Decode (hdr 2 1 1 32 0x20 ++ ([10, 20, 30, 255] ++ [1])) = .error Err.ErrUnexpectedEOF ∧
    Decode (hdr 2 1 1 32 0 ++ [10, 20, 30, 255]) = .ok ⟨1, 1, [⟨30, 20, 10, 255⟩]⟩ ∧
    Decode (hdr 2 1 1 32 0 ++ ([10, 20, 30, 255] ++ [1])) = .ok ⟨1, 1, [⟨30, 20, 10, 255⟩]⟩ := by
  refine ⟨by decide, by decide, by decide, by decide⟩

/-- C19: two inputs with 18-byte headers that agree on header byte 2 (datatype code),
on bytes 12 to 16 (width, height, bits per pixel), on bit 5 of byte 17 and on every
byte after the header get the same result from `Decode`; bytes 0, 1 and 3 to 11 and
the other bits of byte 17 are not looked at, and the pixel data is what follows the
18 header bytes. -/
theorem C19_header_dependence (hd hd1 p : List Byte) (hlen : hd.length = 18)
    (hlen1 : hd1.length = 18) (h2 : hd.getD 2 0 = hd1.getD 2 0)
    (h12 : hd.getD 12 0 = hd1.getD 12 0) (h13 : hd.getD 13 0 = hd1.getD 13 0)
    (h14 : hd.getD 14 0 = hd1.getD 14 0) (h15 : hd.getD 15 0 = hd1.getD 15 0)
    (h16 : hd.getD 16 0 = hd1.getD 16 0)
    (h17 : (hd.getD 17 0).val / 32 % 2 = (hd1.getD 17 0).val / 32 % 2) :
    Decode (hd ++ p) = Decode (hd1 ++ p) := by
  rw [Decode_append hd p hlen, Decode_append hd1 p hlen1]
  have hw : (parsed hd p).width = (parsed hd1 p).width := by
    simp only [parsed, decodeHeader, h12, h13]
  have hh : (parsed hd p).height = (parsed hd1 p).height := by
    simp only [parsed, decodeHeader, h14, h15]
  have hflip : (parsed hd p).flip = (parsed hd1 p).flip := by
    rw [parsed_flip, parsed_flip]
    by_cases hb : (hd.getD 17 0).val / 32 % 2 = 1
    · rw [decide_eq_true ((bit5_iff _).mpr hb), decide_eq_true ((bit5_iff _).mpr (h17 ▸ hb))]
    · have hb1 : ¬ (hd1.getD 17 0).val / 32 % 2 = 1 := by rw [← h17]; exact hb
      rw [decide_eq_false (fun hc => hb ((bit5_iff _).mp hc)),
        decide_eq_false (fun hc => hb1 ((bit5_iff _).mp hc))]
  rw [hw, hh]
  exact decodePixels_congr SetNRGBA (parsed hd p) (parsed hd1 p) _
    (by simp only [parsed, decodeHeader, h2]) hw hh (by simp only [parsed, decodeHeader, h16])
    hflip rfl

/-- C19, on the 2x2 example against the same image with other id-length, colour-map
and origin bytes and other low descriptor bits. -/
theorem C19_header_dependence_witness :
    Decode (hdr 2 2 2 32 0x20 ++
        [10, 20, 30, 255, 40, 50, 60, 255, 70, 80, 90, 255, 100, 110, 120, 255]) =
      Decode ([7, 1, 2, 3, 4, 5, 6, 8, 9, 10, 11, 12, 2, 0, 2, 0, 32, 0x28] ++
        [10, 20, 30, 255, 40, 50, 60, 255, 70, 80, 90, 255, 100, 110, 120, 255]) :=
  C19_header_dependence (hdr 2 2 2 32 0x20)
    [7, 1, 2, 3, 4, 5, 6, 8, 9, 10, 11, 12, 2, 0, 2, 0, 32, 0x28]
    [10, 20, 30, 255, 40, 50, 60, 255, 70, 80, 90, 255, 100, 110, 120, 255]
    rfl rfl rfl rfl rfl rfl rfl rfl (by decide)

/-- C20: on every input `Decode` ends with a raster, an error or a panic: the fuel
that bounds its loops, `height + width * (depth / 8) + 2`, is never used up.  The
scanline loops move `y` one step towards the limit in each iteration (at most
`height + 1` iterations), and each iteration of the RLE loop that does not leave the
loop reads `cr[i]` inside the buffer and goes on with a larger `i`. -/
theorem C20_decode_terminates (input : List Byte) :
    Decode input = .panic ∨ (∃ e : Err, Decode input = .error e) ∨
      ∃ img : Image, Decode input = .ok img := by
  by_cases hlen : 18 ≤ input.length
  · obtain ⟨hsplit, h18, _⟩ := take_append_drop_18 input hlen
    have hout := Decode_outcome (input.take 18) (input.drop 18) h18
    rw [← hsplit] at hout
    rcases hout with hp | he | ⟨img, hr, _⟩
    · exact Or.inl hp
    · exact Or.inr (Or.inl ⟨_, he⟩)
    · exact Or.inr (Or.inr ⟨img, hr⟩)
  · obtain ⟨msg, hmsg⟩ := Decode_short input (by omega)
    exact Or.inr (Or.inl ⟨_, hmsg⟩)

end Targa
